import Mathlib

/-!
Verification development for the `cpufreq` module of devlib
(`devlib/module/cpufreq.py`).

The development shallowly embeds the cpufreq operations over an explicit
device-state model.  sysfs files are modelled as cells of a state record:

* `scaling_governor` is a per-policy (frequency-domain) file: writing it
  through any member cpu updates every cpu sharing that cpu's
  `affected_cpus` list (this is exactly the property the source comments
  rely on: "Setting a governor & tunables for a cpu will set them for all
  cpus in the same cpufreq policy").
* governor tunables live either under the per-policy directory
  `cpuN/cpufreq/<governor>/` (per-cpu tunables) or under the global
  directory `cpu/cpufreq/<governor>/` (global tunables); which one exists
  is the discovery result of `_list_governor_tunables`, modelled as the
  static function `Cfg.tunables` (the memoized post-discovery value).
* `scaling_setspeed` / `scaling_cur_freq` are per-policy as well.

The concurrency layer (`devlib.utils.asyn`: `concurrently`,
`map_concurrently`, `asynccontextmanager`) is not part of the provided
sources; per the specification it runs tasks single-threaded with
cooperative interleaving, returns results in input order and propagates
the first failure.  Batches handed to `concurrently` are therefore
modelled as sequential left-to-right execution that stops at the first
failure (one legal schedule); the final-state facts proved below are
schedule independent because the tasks of one batch write disjoint cells.
Traces record every device write (and the reads that the claims need).
-/

namespace Devlib

/-- Exceptions of the model: `TargetStableError` (configuration errors),
`KeyError`/`IndexError` (Python lookup failures inside `use_governor`),
and opaque user exceptions raised by the body of a `use_governor` scope.
An error is carried as a list of exceptions: the head is the surfaced
exception, the tail is the `__context__` chain attached while the
exception was being handled. -/
inductive Exc where
  | targetStableError (msg : String)
  | keyError (key : Nat)
  | indexError
  | userError (tag : Nat)
deriving Repr, DecidableEq

/-- Device I/O events.  `r*` constructors are reads, `w*` constructors are
writes.  `wTunCpu c g t v` is a write of tunable `t` of governor `g`
through the per-policy directory of cpu `c`; `wTunGlobal` is a write
through the global governor directory. -/
inductive Ev where
  | rAff (cpu : Nat)
  | rGov (cpu : Nat)
  | rTun (perCpu : Bool) (cpu : Nat) (gov t : String)
  | rFreq (cpu : Nat)
  | wGov (cpu : Nat) (gov : String)
  | wTunCpu (cpu : Nat) (gov t v : String)
  | wTunGlobal (gov t v : String)
  | wFreq (cpu : Nat) (v : Nat)
deriving Repr, DecidableEq

/-- Static facts about the target device (contents of read-only sysfs
files and memoized discovery results).

`affected c` is the content of `cpuN/cpufreq/affected_cpus`;
`listGovernors c` of `scaling_available_governors`;
`listFreqs c` of `scaling_available_frequencies`;
`tunables g` is the memoized result of `_list_governor_tunables` for
governor `g`: the per-cpu flag and the entries of the governor's tunable
directory (the probe and the `self._governor_tunables` cache of the
source are elided: the cache is keyed by governor name alone, so after
the first call the result is this static per-governor value). -/
structure Cfg where
  online : List Nat
  affected : Nat → List Nat
  listGovernors : Nat → List String
  tunables : String → Bool × List String
  listFreqs : Nat → List Nat

/-- Mutable device state: current governor, per-policy tunable values,
global tunable values, and current frequency.  Per-policy cells are read
through a cpu; domain aliasing is applied at write time. -/
structure St where
  governor : Nat → String
  policyTun : Nat → String → String → String
  globalTun : String → String → String
  freq : Nat → Nat

/-- `WRITE_ONLY_TUNABLES` of `cpufreq.py`: tunables that cannot be read
back, per governor name. -/
def writeOnlyTunables (gov : String) : List String :=
  if gov = "interactive" then ["boostpulse"] else []

/-- Result of a stateful operation: final state, I/O trace, and either a
value or an exception chain.  State and trace are kept on the error path
(Python exceptions do not roll mutations back). -/
abbrev Res (α : Type) := St × List Ev × Except (List Exc) α

/-- Write `scaling_governor` through cpu `c`: every cpu of the policy
(`affected c`) observes the new value. -/
def writeGovCell (cfg : Cfg) (c : Nat) (g : String) (s : St) : St :=
  { s with governor := fun x => if x ∈ cfg.affected c then g else s.governor x }

/-- Write a per-policy tunable through cpu `c`. -/
def writePolicyTunCell (cfg : Cfg) (c : Nat) (gv t v : String) (s : St) : St :=
  { s with policyTun := fun x g u =>
      if x ∈ cfg.affected c ∧ g = gv ∧ u = t then v else s.policyTun x g u }

/-- Write a global tunable. -/
def writeGlobalTunCell (gv t v : String) (s : St) : St :=
  { s with globalTun := fun g u => if g = gv ∧ u = t then v else s.globalTun g u }

/-- Write `scaling_setspeed` through cpu `c`: per-policy. -/
def writeFreqCell (cfg : Cfg) (c : Nat) (v : Nat) (s : St) : St :=
  { s with freq := fun x => if x ∈ cfg.affected c then v else s.freq x }

/-- Error message of `set_governor_tunables` for an invalid tunable
(`"Unexpected tunable {} for governor {} on {}.\nAvailable tunables are: {}"`,
with the cpu rendered as `cpuN`). -/
def tunErrMsg (t gov : String) (c : Nat) (valid : List String) : String :=
  "Unexpected tunable " ++ t ++ " for governor " ++ gov ++ " on cpu" ++
    toString c ++ ".\n" ++ "Available tunables are: " ++ String.intercalate ", " valid

/-- Error message of `set_governor` for an unsupported governor. -/
def govErrMsg (gov : String) (c : Nat) : String :=
  "Governor " ++ gov ++ " not supported for cpu cpu" ++ toString c

/-- The `per_cpu` filter of `set_governor_tunables`: a tunable is skipped
when a filter is given and the governor's discovered per-cpu flag
disagrees with it (`per_cpu is not None and gov_per_cpu != per_cpu`). -/
def skipTun (perCpu : Option Bool) (govPerCpu : Bool) : Bool :=
  match perCpu with
  | some b => govPerCpu != b
  | none => false

/-- The tunable loop of `set_governor_tunables`: iterate the keyword
arguments in order; a valid tunable is written (through the per-policy or
the global path according to the discovered `govPerCpu` flag) unless the
`per_cpu` filter excludes it; the first invalid tunable raises
`TargetStableError` and keeps the writes made so far. -/
def setTunLoop (cfg : Cfg) (c : Nat) (gov : String) (govPerCpu : Bool)
    (valid : List String) (perCpu : Option Bool) :
    List (String × String) → St → Res Unit
  | [], s => (s, [], Except.ok ())
  | (t, v) :: rest, s =>
    if t ∈ valid then
      if skipTun perCpu govPerCpu then
        setTunLoop cfg c gov govPerCpu valid perCpu rest s
      else
        let s1 := if govPerCpu then writePolicyTunCell cfg c gov t v s
                  else writeGlobalTunCell gov t v s
        let ev := if govPerCpu then Ev.wTunCpu c gov t v else Ev.wTunGlobal gov t v
        let r := setTunLoop cfg c gov govPerCpu valid perCpu rest s1
        (r.1, ev :: r.2.1, r.2.2)
    else
      (s, [], Except.error [Exc.targetStableError (tunErrMsg t gov c valid)])

/-- `CpufreqModule.set_governor_tunables`.  With no keyword tunables it
returns immediately.  Otherwise the governor defaults to the cpu's
current governor (a device read), the governor's discovered tunable data
is fetched, and the tunable loop runs. -/
def setGovernorTunables (cfg : Cfg) (c : Nat) (gov? : Option String)
    (perCpu : Option Bool) (kwargs : List (String × String)) (s : St) : Res Unit :=
  if kwargs = [] then (s, [], Except.ok ())
  else
    let gvTr : String × List Ev :=
      match gov? with
      | some g => (g, [])
      | none => (s.governor c, [Ev.rGov c])
    let gv := gvTr.1
    let r := setTunLoop cfg c gv (cfg.tunables gv).1 (cfg.tunables gv).2 perCpu kwargs s
    (r.1, gvTr.2 ++ r.2.1, r.2.2)

/-- `CpufreqModule.set_governor`: validate the governor against the cpu's
supported list, write `scaling_governor`, then apply the keyword
tunables. -/
def setGovernor (cfg : Cfg) (c : Nat) (gov : String)
    (kwargs : List (String × String)) (s : St) : Res Unit :=
  if gov ∈ cfg.listGovernors c then
    let s1 := writeGovCell cfg c gov s
    let r := setGovernorTunables cfg c (some gov) none kwargs s1
    (r.1, Ev.wGov c gov :: r.2.1, r.2.2)
  else
    (s, [], Except.error [Exc.targetStableError (govErrMsg gov c)])

/-- `CpufreqModule.set_frequency` with `exact = True`: check the value
against the available frequencies, check that the current governor is
`userspace`, write `scaling_setspeed` and read back `cpuinfo_cur_freq`
(the read-back only warns, it never raises). -/
def setFrequency (cfg : Cfg) (c : Nat) (v : Nat) (s : St) : Res Unit :=
  if cfg.listFreqs c ≠ [] ∧ v ∉ cfg.listFreqs c then
    (s, [], Except.error [Exc.targetStableError
      ("Can\x27t set cpu" ++ toString c ++ " frequency to " ++ toString v)])
  else if s.governor c ≠ "userspace" then
    (s, [Ev.rGov c], Except.error [Exc.targetStableError
      ("Can\x27t set cpu" ++ toString c ++ " frequency; governor must be \"userspace\"")])
  else
    (writeFreqCell cfg c v s, [Ev.rGov c, Ev.wFreq c v, Ev.rFreq c], Except.ok ())

/-- Tunable names of governor `g` that `get_governor_tunables` reports:
the discovered tunable directory entries minus the write-only names. -/
def tunKeys (cfg : Cfg) (g : String) : List String :=
  ((cfg.tunables g).2).filter (fun t => ¬ t ∈ writeOnlyTunables g)

/-- The value `get_governor_tunables` reads back for tunable `t` of
governor `g` on cpu `c`: the per-policy cell when the governor's tunable
directory is per-cpu, the global cell otherwise (the source's two-path
fallback read). -/
def readTunVal (cfg : Cfg) (s : St) (c : Nat) (g t : String) : String :=
  if (cfg.tunables g).1 then s.policyTun c g t else s.globalTun g t

/-- `CpufreqModule.get_governor_tunables`, value part: the map from each
readable tunable of the cpu's current governor to its current value. -/
def obsTun (cfg : Cfg) (s : St) (c : Nat) : List (String × String) :=
  (tunKeys cfg (s.governor c)).map (fun t => (t, readTunVal cfg s c (s.governor c) t))

/-- Trace of `get_governor_tunables` (the current-governor read followed
by one read per readable tunable). -/
def obsTunTrace (cfg : Cfg) (s : St) (c : Nat) : List Ev :=
  Ev.rGov c :: (tunKeys cfg (s.governor c)).map
    (fun t => Ev.rTun (cfg.tunables (s.governor c)).1 c (s.governor c) t)

/-- The per-cpu snapshot captured by `use_governor`'s `get_cpu_info`:
`affected_cpus`, current governor, readable tunables of the current
governor, current frequency. -/
structure CpuInfo where
  aff : List Nat
  gov : String
  tun : List (String × String)
  freq : Nat
deriving Repr, DecidableEq

/-- `get_cpu_info` of `use_governor` (a read-only concurrent batch). -/
def getCpuInfo (cfg : Cfg) (c : Nat) (s : St) : CpuInfo × List Ev :=
  ({ aff := cfg.affected c
     gov := s.governor c
     tun := obsTun cfg s c
     freq := s.freq c },
   [Ev.rAff c, Ev.rGov c] ++ obsTunTrace cfg s c ++ [Ev.rFreq c])

/-- Modelled from the spec: `map_concurrently(get_cpu_info, cpus)` — the
concurrency coordinator of `devlib.utils.asyn` is not among the provided
sources; per the spec it applies the function to every key and returns a
key-to-result mapping containing exactly the input keys.  Captured here
as the association list in key order (the reads are side-effect free, so
interleaving is irrelevant). -/
def capture (cfg : Cfg) (cpus : List Nat) (s : St) : List (Nat × CpuInfo) × List Ev :=
  match cpus with
  | [] => ([], [])
  | c :: rest =>
    let h := getCpuInfo cfg c s
    let r := capture cfg rest s
    ((c, h.1) :: r.1, h.2 ++ r.2)

/-- Python dict lookup `cpus_infos[cpu]`. -/
def lookupInfo (infos : List (Nat × CpuInfo)) (c : Nat) : Option CpuInfo :=
  (infos.find? (fun p => p.1 = c)).map (fun p => p.2)

/-- The `domains` set of `use_governor`: the first entry of each
snapshot's `affected_cpus` list, deduplicated (`set(info[0][0] ...)`).
An empty `affected_cpus` list raises `IndexError`, as `info[0][0]` does. -/
def domainsOf (infos : List (Nat × CpuInfo)) : Except (List Exc) (List Nat) :=
  match infos.mapM (fun p => p.2.aff.head?) with
  | some l => Except.ok l.dedup
  | none => Except.error [Exc.indexError]

/-- Modelled from the spec: the apply step of `use_governor` runs
`set_governor(cpu, governor, **kwargs)` for every domain representative
under `concurrently`; tasks run cooperatively and the first failure wins.
Modelled as left-to-right execution stopping at the first failure. -/
def applyGovernorPhase (cfg : Cfg) (gov : String) (kwargs : List (String × String)) :
    List Nat → St → Res Unit
  | [], s => (s, [], Except.ok ())
  | r :: rest, s =>
    match setGovernor cfg r gov kwargs s with
    | (s1, tr, Except.ok _) =>
      let q := applyGovernorPhase cfg gov kwargs rest s1
      (q.1, tr ++ q.2.1, q.2.2)
    | (s1, tr, Except.error e) => (s1, tr, Except.error e)

/-- Argument list of the governor-restore batch
(`set_governor(cpu, cpus_infos[cpu][1]) for cpu in domains`): the
generator is iterated when `concurrently` builds its tasks, so a missing
`cpus_infos` key raises `KeyError` before any write is issued. -/
def restoreGovArgs (infos : List (Nat × CpuInfo)) : List Nat → Except (List Exc) (List (Nat × String))
  | [] => Except.ok []
  | r :: rest =>
    match lookupInfo infos r with
    | some i => (restoreGovArgs infos rest).map (fun l => (r, i.gov) :: l)
    | none => Except.error [Exc.keyError r]

/-- Modelled from the spec: the governor-restore `concurrently` batch,
run left to right, stopping at the first failure. -/
def runGovWrites (cfg : Cfg) : List (Nat × String) → St → Res Unit
  | [], s => (s, [], Except.ok ())
  | (r, g) :: rest, s =>
    match setGovernor cfg r g [] s with
    | (s1, tr, Except.ok _) =>
      let q := runGovWrites cfg rest s1
      (q.1, tr ++ q.2.1, q.2.2)
    | (s1, tr, Except.error e) => (s1, tr, Except.error e)

/-- `set_per_cpu_tunables` of `use_governor`: restore the captured
tunables of the representative's previous governor through the
per-policy path, then, if the previous governor was `userspace`, restore
the captured frequency. -/
def perCpuTask (cfg : Cfg) (infos : List (Nat × CpuInfo)) (r : Nat) (s : St) : Res Unit :=
  match lookupInfo infos r with
  | none => (s, [], Except.error [Exc.keyError r])
  | some i =>
    match setGovernorTunables cfg r (some i.gov) (some true) i.tun s with
    | (s1, tr, Except.ok _) =>
      if i.gov = "userspace" then
        let q := setFrequency cfg r i.freq s1
        (q.1, tr ++ q.2.1, q.2.2)
      else (s1, tr, Except.ok ())
    | (s1, tr, Except.error e) => (s1, tr, Except.error e)

/-- Modelled from the spec: the per-cpu tunable-restore `concurrently`
batch over the domain representatives. -/
def perCpuBatch (cfg : Cfg) (infos : List (Nat × CpuInfo)) :
    List Nat → St → Res Unit
  | [], s => (s, [], Except.ok ())
  | r :: rest, s =>
    match perCpuTask cfg infos r s with
    | (s1, tr, Except.ok _) =>
      let q := perCpuBatch cfg infos rest s1
      (q.1, tr ++ q.2.1, q.2.2)
    | (s1, tr, Except.error e) => (s1, tr, Except.error e)

/-- Insert-or-replace for the `global_tunables_dict` comprehension: a
repeated key keeps its first position but takes the later value, as a
Python dict does. -/
def upsert (k : String) (v : Nat × List (String × String)) :
    List (String × Nat × List (String × String)) →
    List (String × Nat × List (String × String))
  | [] => [(k, v)]
  | (q, w) :: rest => if q = k then (q, v) :: rest else (q, w) :: upsert k v rest

/-- `global_tunables_dict`: previous governor name to (cpu, captured
tunables), the last targeted cpu with each previous governor winning. -/
def globalTunablesDict (infos : List (Nat × CpuInfo)) :
    List (String × Nat × List (String × String)) :=
  infos.foldl (fun acc p => upsert p.2.gov (p.1, p.2.tun) acc) []

/-- One task of the global tunable-restore batch:
`set_governor_tunables(cpu, gov, per_cpu=False, **tunables)`. -/
def globalTask (cfg : Cfg) (e : String × Nat × List (String × String)) (s : St) : Res Unit :=
  setGovernorTunables cfg e.2.1 (some e.1) (some false) e.2.2 s

/-- Modelled from the spec: the global tunable-restore `concurrently`
batch, one task per distinct previous governor. -/
def globalBatch (cfg : Cfg) :
    List (String × Nat × List (String × String)) → St → Res Unit
  | [], s => (s, [], Except.ok ())
  | e :: rest, s =>
    match globalTask cfg e s with
    | (s1, tr, Except.ok _) =>
      let q := globalBatch cfg rest s1
      (q.1, tr ++ q.2.1, q.2.2)
    | (s1, tr, Except.error e1) => (s1, tr, Except.error e1)

/-- The restore phase of `use_governor` (the body of its `finally`):
await the governor-restore batch first, then the per-cpu and global
tunable batches (awaited together; they write disjoint cells, so they
are modelled per-cpu first, then global).  A failure of the governor
batch skips the tunable batches, as `await` sequencing does. -/
def restorePhase (cfg : Cfg) (infos : List (Nat × CpuInfo)) (domains : List Nat)
    (s : St) : Res Unit :=
  match restoreGovArgs infos domains with
  | Except.error e => (s, [], Except.error e)
  | Except.ok args =>
    match runGovWrites cfg args s with
    | (s1, tr1, Except.ok _) =>
      match perCpuBatch cfg infos domains s1 with
      | (s2, tr2, Except.ok _) =>
        let q := globalBatch cfg (globalTunablesDict infos) s2
        (q.1, tr1 ++ tr2 ++ q.2.1, q.2.2)
      | (s2, tr2, Except.error e) => (s2, tr1 ++ tr2, Except.error e)
    | (s1, tr1, Except.error e) => (s1, tr1, Except.error e)

/-- `CpufreqModule.use_governor`: resolve the cpu list (all online by
default), capture a snapshot per cpu, compute the domain
representatives, apply the new governor once per domain, run the body,
and always run the restore phase.  Exception combination follows the
Python `try/finally` of the source generator: an exception raised by the
`finally` block replaces an in-flight body exception, which is attached
to it as `__context__` (head of the list = surfaced exception). -/
def useGovernor (cfg : Cfg) (gov : String) (kwargs : List (String × String))
    (cpus0 : List Nat) (body : St → St × Except (List Exc) Unit) (s : St) : Res Unit :=
  let cpus := if cpus0 = [] then cfg.online else cpus0
  let cap := capture cfg cpus s
  let infos := cap.1
  match domainsOf infos with
  | Except.error e => (s, cap.2, Except.error e)
  | Except.ok domains =>
    match applyGovernorPhase cfg gov kwargs domains s with
    | (s1, tr1, Except.error e) => (s1, cap.2 ++ tr1, Except.error e)
    | (s1, tr1, Except.ok _) =>
      let b := body s1
      let r := restorePhase cfg infos domains b.1
      let res : Except (List Exc) Unit :=
        match b.2, r.2.2 with
        | Except.ok _, Except.ok _ => Except.ok ()
        | Except.error e, Except.ok _ => Except.error e
        | Except.ok _, Except.error e => Except.error e
        | Except.error e1, Except.error e2 => Except.error (e2 ++ e1)
      (r.1, cap.2 ++ tr1 ++ r.2.1, res)

/-- The loop of `CpufreqModule.iter_domains`, with explicit fuel standing
for the number of loop iterations the caller is willing to observe
(`none` = the loop did not finish within the fuel, in particular when it
diverges).  The remaining working set is a list; the arbitrary
`next(iter(cpus))` pick is its head; `cpus.difference(domain)` is a
filter. -/
def iterDomainsAux (related : Nat → List Nat) :
    Nat → List Nat → Option (List (List Nat))
  | _, [] => some []
  | 0, _ :: _ => none
  | fuel + 1, c :: rest =>
    let d := related c
    (iterDomainsAux related fuel ((c :: rest).filter (fun x => ¬ x ∈ d))).map
      (fun ys => d :: ys)

/-- `CpufreqModule.iter_domains`: start from the universe
`range number_of_cpus`; repeatedly pick a remaining cpu, read its
`related_cpus` list, yield it as a domain and drop its members. -/
def iterDomains (numCpus : Nat) (related : Nat → List Nat) (fuel : Nat) :
    Option (List (List Nat)) :=
  iterDomainsAux related fuel (List.range numCpus)

/-! ### Well-formedness of a device and of a reachable device state -/

/-- The domain representative `use_governor` uses for cpu `c`: the first
entry of its `affected_cpus` list (the default is irrelevant whenever the
list is nonempty, which `WfCfg` guarantees). -/
def repOf (cfg : Cfg) (c : Nat) : Nat :=
  (cfg.affected c).headD c

/-- Device-topology well-formedness: every cpu is in its own
`affected_cpus` list, cpus of one policy expose identical lists, and each
discovered tunable directory lists each tunable once. -/
def WfCfg (cfg : Cfg) : Prop :=
  (∀ c, c ∈ cfg.affected c) ∧
  (∀ c cx, cx ∈ cfg.affected c → cfg.affected cx = cfg.affected c) ∧
  (∀ g, ((cfg.tunables g).2).Nodup)

/-- Per-policy files hold one value per policy: cpus sharing a policy
observe equal governor, per-policy tunable and frequency values. -/
def DomConsistent (cfg : Cfg) (s : St) : Prop :=
  ∀ c cx, cx ∈ cfg.affected c →
    s.governor cx = s.governor c ∧
    (∀ g t, s.policyTun cx g t = s.policyTun c g t) ∧
    s.freq cx = s.freq c

/-- Reachable-state well-formedness: per-policy consistency, the current
governor is always among the supported governors, and the current
frequency is an available frequency whenever the available list is
exposed. -/
def WfSt (cfg : Cfg) (s : St) : Prop :=
  DomConsistent cfg s ∧
  (∀ c, s.governor c ∈ cfg.listGovernors c) ∧
  (∀ c, cfg.listFreqs c = [] ∨ s.freq c ∈ cfg.listFreqs c)

/-- A well-formed `related_cpus` relation: every cpu below `n` is in its
own related list, and cpus of one domain agree on the list and stay
below `n`.  This is what the sysfs file guarantees on a real device. -/
def DomRel (n : Nat) (related : Nat → List Nat) : Prop :=
  ∀ c, c < n → c ∈ related c ∧ ∀ cx ∈ related c, cx < n ∧ related cx = related c

/-- A `related_cpus` function on which `iter_domains` yields overlapping
domains: cpu 1 is related both to 0 and to 2, but 0 and 2 disagree. -/
def badRel : Nat → List Nat :=
  fun c => if c = 0 then [0, 1] else if c = 2 then [1, 2] else [0, 1]

lemma length_filter_lt_of_mem {l : List Nat} {p : Nat → Bool} {x : Nat}
    (hx : x ∈ l) (hpx : ¬ p x) : (l.filter p).length < l.length := by
  induction l with
  | nil => cases hx
  | cons a l ih =>
    simp only [List.filter_cons, List.length_cons]
    rcases List.mem_cons.mp hx with rfl | hm
    · simp [hpx]
      exact Nat.lt_succ_of_le (List.length_filter_le p l)
    · by_cases hpa : p a
      · simp only [hpa, if_pos, List.length_cons]
        exact Nat.succ_lt_succ (ih hm)
      · simp only [hpa, Bool.false_eq_true, if_neg]
        exact Nat.lt_succ_of_lt (ih hm)

lemma iterDomainsAux_spec {n : Nat} {related : Nat → List Nat}
    (hrel : DomRel n related) :
    ∀ fuel rem, (∀ x ∈ rem, x < n) →
      (∀ c ∈ rem, ∀ x ∈ related c, x ∈ rem) →
      rem.length ≤ fuel →
      ∃ ys, iterDomainsAux related fuel rem = some ys ∧
        (∀ x ∈ rem, ys.countP (fun d => decide (x ∈ d)) = 1) ∧
        (∀ d ∈ ys, ∃ c ∈ rem, d = related c) := by
  intro fuel
  induction fuel with
  | zero =>
    intro rem _ _ hlen
    have : rem = [] := List.length_eq_zero.mp (Nat.le_zero.mp hlen)
    subst this
    exact ⟨[], rfl, by simp, by simp⟩
  | succ fuel ih =>
    intro rem hsub hclosed hlen
    match rem with
    | [] => exact ⟨[], rfl, by simp, by simp⟩
    | c :: rest =>
      have hcrem : c ∈ c :: rest := List.mem_cons_self c rest
      have hcn : c < n := hsub c hcrem
      have hcd : c ∈ related c := (hrel c hcn).1
      set d := related c with hd
      set rem1 := (c :: rest).filter (fun x => ¬ x ∈ d) with hrem1
      -- every element of `rem1` is an element of `rem`
      have hsub1 : ∀ x ∈ rem1, x ∈ c :: rest := by
        intro x hx
        exact (List.mem_filter.mp hx).1
      -- a cpu surviving the filter is not in `d` and has no domain overlap with `d`
      have hnotd : ∀ x ∈ rem1, ¬ x ∈ d := by
        intro x hx
        have := (List.mem_filter.mp hx).2
        simpa using this
      have hclosed1 : ∀ cx ∈ rem1, ∀ x ∈ related cx, x ∈ rem1 := by
        intro cx hcx x hx
        have hcxrem := hsub1 cx hcx
        have hcxn : cx < n := hsub cx hcxrem
        have hxrem : x ∈ c :: rest := hclosed cx hcxrem x hx
        have hxnotd : ¬ x ∈ d := by
          intro hxd
          have hxn : x < n := ((hrel c hcn).2 x hxd).1
          have h1 : related x = related c := ((hrel c hcn).2 x hxd).2
          have h2 : related x = related cx := ((hrel cx hcxn).2 x hx).2
          have : related cx = related c := by rw [← h2, h1]
          have : cx ∈ d := by
            rw [hd, ← this]
            exact (hrel cx hcxn).1
          exact hnotd cx hcx this
        rw [hrem1]
        refine List.mem_filter.mpr ⟨hxrem, ?_⟩
        simpa using hxnotd
      have hlen1 : rem1.length ≤ fuel := by
        have hlt : rem1.length < (c :: rest).length := by
          apply length_filter_lt_of_mem hcrem
          simp [hcd]
        omega
      obtain ⟨ys1, hys1, hcount1, horig1⟩ :=
        ih rem1 (fun x hx => hsub x (hsub1 x hx)) hclosed1 hlen1
      refine ⟨d :: ys1, ?_, ?_, ?_⟩
      · show (iterDomainsAux related fuel rem1).map (fun ys => d :: ys) = _
        rw [hys1]
        rfl
      · intro x hx
        rw [List.countP_cons]
        by_cases hxd : x ∈ d
        · have hzero : ys1.countP (fun dd => decide (x ∈ dd)) = 0 := by
            apply List.countP_eq_zero.mpr
            intro dd hdd
            obtain ⟨cx, hcx, rfl⟩ := horig1 dd hdd
            simp only [decide_eq_true_eq]
            intro hxdd
            have hcxn : cx < n := hsub cx (hsub1 cx hcx)
            have h1 : related x = related c := ((hrel c hcn).2 x hxd).2
            have h2 : related x = related cx := ((hrel cx hcxn).2 x hxdd).2
            have heq : related cx = related c := by rw [← h2, h1]
            exact hnotd cx hcx (by rw [hd, ← heq]; exact (hrel cx hcxn).1)
          simp [hzero, hxd]
        · have hx1 : x ∈ rem1 := by
            rw [hrem1]
            refine List.mem_filter.mpr ⟨hx, ?_⟩
            simpa using hxd
          simp [hcount1 x hx1, hxd]
      · intro dd hdd
        rcases List.mem_cons.mp hdd with rfl | hmem
        · exact ⟨c, hcrem, rfl⟩
        · obtain ⟨cx, hcx, h⟩ := horig1 dd hmem
          exact ⟨cx, hsub1 cx hcx, h⟩

/-- C4, counterexample: with the ill-formed relation `badRel` (cpu 0
reports domain `[0,1]`, cpu 2 reports `[1,2]`), `iter_domains` over the
universe `{0,1,2}` terminates but yields domains `[0,1]` and `[1,2]`:
cpu 1 appears in two yielded domains, so the yielded domains are not
pairwise disjoint and cpu 1 does not appear in exactly one domain.  The
claim is therefore false for arbitrary related-cpus relations. -/
theorem claim4_counterexample :
    iterDomains 3 badRel 3 = some [[0, 1], [1, 2]] ∧
    ([[0, 1], [1, 2]] : List (List Nat)).countP (fun d => decide (1 ∈ d)) = 2 :=
  ⟨rfl, rfl⟩

/-- C4 (amended): for every cpu universe `{0, ..., n-1}` and every
related-cpus relation that is domain-consistent (each cpu is in its own
related list, and members of one related list stay in the universe and
report the same list — `DomRel`), `iter_domains` terminates within `n`
iterations and the yielded domains lie inside the universe and contain
each cpu of the universe exactly once — hence they are pairwise
disjoint and their union is the universe. -/
theorem claim4_partition (n : Nat) (related : Nat → List Nat)
    (hrel : DomRel n related) :
    ∃ ys, iterDomains n related n = some ys ∧
      (∀ d ∈ ys, ∀ x ∈ d, x < n) ∧
      (∀ c, c < n → ys.countP (fun d => decide (c ∈ d)) = 1) := by
  obtain ⟨ys, hys, hcount, horig⟩ :=
    iterDomainsAux_spec hrel n (List.range n)
      (fun x hx => List.mem_range.mp hx)
      (fun c hc x hx =>
        List.mem_range.mpr ((hrel c (List.mem_range.mp hc)).2 x hx).1)
      (by simp)
  refine ⟨ys, hys, ?_, ?_⟩
  · intro d hd x hx
    obtain ⟨c, hc, rfl⟩ := horig d hd
    exact ((hrel c (List.mem_range.mp hc)).2 x hx).1
  · intro c hc
    exact hcount c (List.mem_range.mpr hc)

/-- Witness relation for the amended C4: two domains `[0,1]` and `[2,3]`. -/
def relW : Nat → List Nat :=
  fun c => if c < 2 then [0, 1] else [2, 3]

/-- Witness for C4: the amended theorem applied to the concrete
two-domain system `relW` on universe `{0,1,2,3}`. -/
theorem claim4_partition_witness :
    ∃ ys, iterDomains 4 relW 4 = some ys ∧
      (∀ d ∈ ys, ∀ x ∈ d, x < 4) ∧
      (∀ c, c < 4 → ys.countP (fun d => decide (c ∈ d)) = 1) :=
  claim4_partition 4 relW (by unfold DomRel; decide)

/-- C10: `set_governor_tunables` with no keyword tunables returns
immediately: the state is untouched, no device read or write happens
(empty trace), and no error is raised for any governor argument —
including an unknown or unsupported one — because the early return
precedes governor resolution and validation. -/
theorem claim10_no_tunables_noop (cfg : Cfg) (c : Nat) (gov? : Option String)
    (perCpu : Option Bool) (s : St) :
    setGovernorTunables cfg c gov? perCpu [] s = (s, [], Except.ok ()) :=
  rfl

lemma setTunLoop_prefix_invalid (cfg : Cfg) (c : Nat) (gov : String) (gpc : Bool)
    (valid : List String) (perCpu : Option Bool) (pre rest : List (String × String))
    (bad v : String) (s : St)
    (hpre : ∀ p ∈ pre, p.1 ∈ valid) (hbad : ¬ bad ∈ valid) :
    setTunLoop cfg c gov gpc valid perCpu (pre ++ (bad, v) :: rest) s =
      ((setTunLoop cfg c gov gpc valid perCpu pre s).1,
       (setTunLoop cfg c gov gpc valid perCpu pre s).2.1,
       Except.error [Exc.targetStableError (tunErrMsg bad gov c valid)]) := by
  induction pre generalizing s with
  | nil =>
    simp [setTunLoop, hbad]
  | cons p pre ih =>
    obtain ⟨t, v1⟩ := p
    have ht : t ∈ valid := hpre (t, v1) (List.mem_cons_self _ _)
    have hpre1 : ∀ q ∈ pre, q.1 ∈ valid := fun q hq => hpre q (List.mem_cons_of_mem _ hq)
    simp only [List.cons_append, setTunLoop, if_pos ht]
    by_cases hskip : skipTun perCpu gpc
    · simp only [if_pos hskip]
      exact ih _ hpre1
    · simp only [if_neg hskip, List.append_eq]
      rw [ih _ hpre1]

/-- C6: a `set_governor_tunables` call whose keyword tunables contain a
name that is not among the governor's discovered valid tunables raises
`TargetStableError` with a message naming the invalid tunable and the
valid-tunable list, and the tunables written before the first invalid
name in iteration order stay written: the final state equals the state
reached by applying only the valid prefix (no rollback). -/
theorem claim6_invalid_tunable (cfg : Cfg) (c : Nat) (gov : String) (s : St)
    (pre rest : List (String × String)) (bad v : String)
    (hpre : ∀ p ∈ pre, p.1 ∈ (cfg.tunables gov).2)
    (hbad : ¬ bad ∈ (cfg.tunables gov).2) :
    (setGovernorTunables cfg c (some gov) none (pre ++ (bad, v) :: rest) s).2.2 =
      Except.error [Exc.targetStableError (tunErrMsg bad gov c (cfg.tunables gov).2)] ∧
    (setGovernorTunables cfg c (some gov) none (pre ++ (bad, v) :: rest) s).1 =
      (setGovernorTunables cfg c (some gov) none pre s).1 := by
  have hne : pre ++ (bad, v) :: rest ≠ [] := by simp
  constructor
  · simp only [setGovernorTunables, if_neg hne]
    rw [setTunLoop_prefix_invalid cfg c gov _ _ none pre rest bad v s hpre hbad]
  · simp only [setGovernorTunables, if_neg hne]
    rw [setTunLoop_prefix_invalid cfg c gov _ _ none pre rest bad v s hpre hbad]
    by_cases hp : pre = []
    · subst hp
      simp [setTunLoop]
    · simp [if_neg hp]

/-- Witness for C6: governor with valid tunables `["a", "b"]`; the call
setting `a` then the invalid `zz` then `b` fails with the configuration
message for `zz`, and the state equals the state with only `a` written. -/
theorem claim6_invalid_tunable_witness :
    (∀ p ∈ [("a", "1")], p.1 ∈ ((fun _ => (true, ["a", "b"])) "g" : Bool × List String).2) ∧
    (setGovernorTunables
        { online := [0], affected := fun _ => [0],
          listGovernors := fun _ => ["g"],
          tunables := fun _ => (true, ["a", "b"]),
          listFreqs := fun _ => [] }
        0 (some "g") none ([("a", "1")] ++ ("zz", "2") :: [("b", "3")])
        { governor := fun _ => "g", policyTun := fun _ _ _ => "0",
          globalTun := fun _ _ => "0", freq := fun _ => 0 }).2.2 =
      Except.error [Exc.targetStableError (tunErrMsg "zz" "g" 0 ["a", "b"])] := by
  refine ⟨by decide, ?_⟩
  exact (claim6_invalid_tunable _ 0 "g" _ [("a", "1")] [("b", "3")] "zz" "2"
    (by decide) (by decide)).1

/-- C9: for a cpu whose governor has `boostpulse` among its discovered
tunables, `set_governor_tunables(cpu, "interactive", boostpulse=v)`
succeeds and issues exactly one tunable write, while
`get_governor_tunables` on a cpu whose current governor is
`"interactive"` never reports the write-only tunable `boostpulse`. -/
theorem claim9_write_only (cfg : Cfg) (c : Nat) (s : St) (v : String)
    (h1 : s.governor c = "interactive")
    (h2 : "boostpulse" ∈ (cfg.tunables "interactive").2) :
    ((setGovernorTunables cfg c (some "interactive") none [("boostpulse", v)] s).2.2 =
        Except.ok () ∧
      ∃ e, (setGovernorTunables cfg c (some "interactive") none [("boostpulse", v)] s).2.1 = [e] ∧
        (e = Ev.wTunCpu c "interactive" "boostpulse" v ∨
         e = Ev.wTunGlobal "interactive" "boostpulse" v)) ∧
    ¬ "boostpulse" ∈ (obsTun cfg s c).map Prod.fst := by
  refine ⟨?_, ?_⟩
  · have hne : [("boostpulse", v)] ≠ ([] : List (String × String)) := by simp
    simp only [setGovernorTunables, if_neg hne, setTunLoop, if_pos h2]
    have hskip : skipTun none (cfg.tunables "interactive").1 = false := rfl
    simp only [hskip, Bool.false_eq_true, if_neg]
    by_cases hpc : (cfg.tunables "interactive").1
    · simp [setTunLoop, hpc]
    · simp [setTunLoop, hpc]
  · simp only [obsTun, h1, List.map_map]
    have hid : (Prod.fst ∘ fun t =>
        (t, readTunVal cfg s c "interactive" t)) = id := rfl
    rw [hid, List.map_id]
    simp [tunKeys, writeOnlyTunables, List.mem_filter]

/-- Witness for C9: a concrete interactive-governor configuration. -/
theorem claim9_write_only_witness :
    ((setGovernorTunables
        { online := [0], affected := fun _ => [0],
          listGovernors := fun _ => ["interactive"],
          tunables := fun _ => (true, ["boostpulse", "rate"]),
          listFreqs := fun _ => [] }
        0 (some "interactive") none [("boostpulse", "1")]
        { governor := fun _ => "interactive", policyTun := fun _ _ _ => "0",
          globalTun := fun _ _ => "0", freq := fun _ => 0 }).2.2 =
        Except.ok () ∧
      ∃ e, (setGovernorTunables
        { online := [0], affected := fun _ => [0],
          listGovernors := fun _ => ["interactive"],
          tunables := fun _ => (true, ["boostpulse", "rate"]),
          listFreqs := fun _ => [] }
        0 (some "interactive") none [("boostpulse", "1")]
        { governor := fun _ => "interactive", policyTun := fun _ _ _ => "0",
          globalTun := fun _ _ => "0", freq := fun _ => 0 }).2.1 = [e] ∧
        (e = Ev.wTunCpu 0 "interactive" "boostpulse" "1" ∨
         e = Ev.wTunGlobal "interactive" "boostpulse" "1")) ∧
    ¬ "boostpulse" ∈ (obsTun
        { online := [0], affected := fun _ => [0],
          listGovernors := fun _ => ["interactive"],
          tunables := fun _ => (true, ["boostpulse", "rate"]),
          listFreqs := fun _ => [] }
        { governor := fun _ => "interactive", policyTun := fun _ _ _ => "0",
          globalTun := fun _ _ => "0", freq := fun _ => 0 } 0).map Prod.fst :=
  claim9_write_only _ 0 _ "1" rfl (by decide)

/-! ### Frame lemmas for the write cells -/

@[simp] lemma writeGovCell_policyTun (cfg : Cfg) (c : Nat) (g : String) (s : St) :
    (writeGovCell cfg c g s).policyTun = s.policyTun := rfl

@[simp] lemma writeGovCell_globalTun (cfg : Cfg) (c : Nat) (g : String) (s : St) :
    (writeGovCell cfg c g s).globalTun = s.globalTun := rfl

@[simp] lemma writeGovCell_freq (cfg : Cfg) (c : Nat) (g : String) (s : St) :
    (writeGovCell cfg c g s).freq = s.freq := rfl

@[simp] lemma writePolicyTunCell_governor (cfg : Cfg) (c : Nat) (gv t v : String) (s : St) :
    (writePolicyTunCell cfg c gv t v s).governor = s.governor := rfl

@[simp] lemma writePolicyTunCell_globalTun (cfg : Cfg) (c : Nat) (gv t v : String) (s : St) :
    (writePolicyTunCell cfg c gv t v s).globalTun = s.globalTun := rfl

@[simp] lemma writePolicyTunCell_freq (cfg : Cfg) (c : Nat) (gv t v : String) (s : St) :
    (writePolicyTunCell cfg c gv t v s).freq = s.freq := rfl

@[simp] lemma writeGlobalTunCell_governor (gv t v : String) (s : St) :
    (writeGlobalTunCell gv t v s).governor = s.governor := rfl

@[simp] lemma writeGlobalTunCell_policyTun (gv t v : String) (s : St) :
    (writeGlobalTunCell gv t v s).policyTun = s.policyTun := rfl

@[simp] lemma writeGlobalTunCell_freq (gv t v : String) (s : St) :
    (writeGlobalTunCell gv t v s).freq = s.freq := rfl

@[simp] lemma writeFreqCell_governor (cfg : Cfg) (c : Nat) (v : Nat) (s : St) :
    (writeFreqCell cfg c v s).governor = s.governor := rfl

@[simp] lemma writeFreqCell_policyTun (cfg : Cfg) (c : Nat) (v : Nat) (s : St) :
    (writeFreqCell cfg c v s).policyTun = s.policyTun := rfl

@[simp] lemma writeFreqCell_globalTun (cfg : Cfg) (c : Nat) (v : Nat) (s : St) :
    (writeFreqCell cfg c v s).globalTun = s.globalTun := rfl

/-! ### Representative and topology lemmas -/

lemma affected_ne_nil {cfg : Cfg} (hwf : WfCfg cfg) (c : Nat) :
    cfg.affected c ≠ [] := by
  intro h
  have := hwf.1 c
  rw [h] at this
  cases this

lemma headD_mem {l : List Nat} {d : Nat} (h : l ≠ []) : l.headD d ∈ l := by
  cases l with
  | nil => exact absurd rfl h
  | cons a l => exact List.mem_cons_self a l

lemma headD_congr {l : List Nat} (a b : Nat) (h : l ≠ []) : l.headD a = l.headD b := by
  cases l with
  | nil => exact absurd rfl h
  | cons x l => rfl

lemma repOf_mem {cfg : Cfg} (hwf : WfCfg cfg) (c : Nat) :
    repOf cfg c ∈ cfg.affected c :=
  headD_mem (affected_ne_nil hwf c)

lemma affected_repOf {cfg : Cfg} (hwf : WfCfg cfg) (c : Nat) :
    cfg.affected (repOf cfg c) = cfg.affected c :=
  hwf.2.1 c (repOf cfg c) (repOf_mem hwf c)

lemma mem_affected_repOf {cfg : Cfg} (hwf : WfCfg cfg) (c : Nat) :
    c ∈ cfg.affected (repOf cfg c) := by
  rw [affected_repOf hwf c]
  exact hwf.1 c

lemma repOf_eq_of_mem {cfg : Cfg} (hwf : WfCfg cfg) {x c : Nat}
    (h : x ∈ cfg.affected c) : repOf cfg x = repOf cfg c := by
  have haff : cfg.affected x = cfg.affected c := hwf.2.1 c x h
  unfold repOf
  rw [haff]
  exact headD_congr x c (affected_ne_nil hwf c)

lemma repOf_idem {cfg : Cfg} (hwf : WfCfg cfg) (c : Nat) :
    repOf cfg (repOf cfg c) = repOf cfg c :=
  repOf_eq_of_mem hwf (repOf_mem hwf c)

/-- A cpu `c` lies in the affected list of a representative `r` exactly
when `r` is `c`'s own representative. -/
lemma mem_affected_rep_iff {cfg : Cfg} (hwf : WfCfg cfg) {r c : Nat}
    (hr : repOf cfg r = r) : c ∈ cfg.affected r ↔ r = repOf cfg c := by
  constructor
  · intro h
    rw [repOf_eq_of_mem hwf h]
    exact hr.symm
  · intro h
    rw [h]
    exact mem_affected_repOf hwf c

/-! ### Governor-consistency consequences -/

lemma governor_eq_of_mem {cfg : Cfg} {s : St} (hst : DomConsistent cfg s)
    {x c : Nat} (h : x ∈ cfg.affected c) : s.governor x = s.governor c :=
  (hst c x h).1

lemma policyTun_eq_of_mem {cfg : Cfg} {s : St} (hst : DomConsistent cfg s)
    {x c : Nat} (h : x ∈ cfg.affected c) (g t : String) :
    s.policyTun x g t = s.policyTun c g t :=
  (hst c x h).2.1 g t

lemma freq_eq_of_mem {cfg : Cfg} {s : St} (hst : DomConsistent cfg s)
    {x c : Nat} (h : x ∈ cfg.affected c) : s.freq x = s.freq c :=
  (hst c x h).2.2

lemma governor_repOf {cfg : Cfg} {s : St} (hwf : WfCfg cfg)
    (hst : DomConsistent cfg s) (c : Nat) :
    s.governor (repOf cfg c) = s.governor c := by
  have := governor_eq_of_mem hst (mem_affected_repOf hwf c)
  exact this.symm

/-! ### Capture lemmas -/

@[simp] lemma getCpuInfo_aff (cfg : Cfg) (c : Nat) (s : St) :
    (getCpuInfo cfg c s).1.aff = cfg.affected c := rfl

@[simp] lemma getCpuInfo_gov (cfg : Cfg) (c : Nat) (s : St) :
    (getCpuInfo cfg c s).1.gov = s.governor c := rfl

@[simp] lemma getCpuInfo_tun (cfg : Cfg) (c : Nat) (s : St) :
    (getCpuInfo cfg c s).1.tun = obsTun cfg s c := rfl

@[simp] lemma getCpuInfo_freq (cfg : Cfg) (c : Nat) (s : St) :
    (getCpuInfo cfg c s).1.freq = s.freq c := rfl

lemma capture_fst (cfg : Cfg) (cpus : List Nat) (s : St) :
    (capture cfg cpus s).1 = cpus.map (fun c => (c, (getCpuInfo cfg c s).1)) := by
  induction cpus with
  | nil => rfl
  | cons c rest ih => simp [capture, ih]

lemma lookupInfo_capture {cfg : Cfg} {cpus : List Nat} {s : St} {c : Nat}
    (h : c ∈ cpus) :
    lookupInfo (capture cfg cpus s).1 c = some (getCpuInfo cfg c s).1 := by
  induction cpus with
  | nil => cases h
  | cons c0 rest ih =>
    by_cases hc : c0 = c
    · subst hc
      simp [capture, lookupInfo, List.find?]
    · have hmem : c ∈ rest := by
        rcases List.mem_cons.mp h with h1 | h1
        · exact absurd h1.symm hc
        · exact h1
      have := ih hmem
      simp only [capture, capture_fst, lookupInfo, List.find?] at this ⊢
      simp only [hc, decide_eq_true_eq, if_neg hc]
      simpa [lookupInfo, capture_fst] using this

lemma domainsOf_capture {cfg : Cfg} (hwf : WfCfg cfg) (cpus : List Nat) (s : St) :
    domainsOf (capture cfg cpus s).1 =
      Except.ok ((cpus.map (repOf cfg)).dedup) := by
  have hmapM : ((capture cfg cpus s).1).mapM (fun p => p.2.aff.head?) =
      some (cpus.map (repOf cfg)) := by
    induction cpus with
    | nil => rfl
    | cons c rest ih =>
      have hne := affected_ne_nil hwf c
      have hhead : (cfg.affected c).head? = some (repOf cfg c) := by
        cases hl : cfg.affected c with
        | nil => exact absurd hl hne
        | cons a l => simp [repOf, hl]
      simp only [capture, List.mapM_cons, getCpuInfo_aff, hhead, ih,
        Option.pure_def, Option.bind_eq_bind, Option.bind_some, List.map_cons]
      rfl
  have hdef : domainsOf (capture cfg cpus s).1 =
      match ((capture cfg cpus s).1).mapM (fun p => p.2.aff.head?) with
      | some l => Except.ok l.dedup
      | none => Except.error [Exc.indexError] := rfl
  rw [hdef, hmapM]

/-! ### Tunable-loop lemmas -/

/-- First-match association lookup (the final value a key receives when
its list is written left to right and keys are distinct). -/
def lookupTun (t : String) : List (String × String) → Option String
  | [] => none
  | (k, v) :: rest => if k = t then some v else lookupTun t rest

lemma setTunLoop_governor (cfg : Cfg) (c : Nat) (gov : String) (gpc : Bool)
    (valid : List String) (pc : Option Bool) (kwargs : List (String × String)) (s : St) :
    (setTunLoop cfg c gov gpc valid pc kwargs s).1.governor = s.governor := by
  induction kwargs generalizing s with
  | nil => rfl
  | cons p rest ih =>
    obtain ⟨t, v⟩ := p
    by_cases ht : t ∈ valid
    · by_cases hskip : skipTun pc gpc
      · simp only [setTunLoop, if_pos ht, if_pos hskip]
        exact ih s
      · simp only [setTunLoop, if_pos ht, if_neg hskip]
        rw [ih]
        by_cases hg : gpc <;> simp [hg]
    · simp [setTunLoop, ht]

lemma setTunLoop_freq (cfg : Cfg) (c : Nat) (gov : String) (gpc : Bool)
    (valid : List String) (pc : Option Bool) (kwargs : List (String × String)) (s : St) :
    (setTunLoop cfg c gov gpc valid pc kwargs s).1.freq = s.freq := by
  induction kwargs generalizing s with
  | nil => rfl
  | cons p rest ih =>
    obtain ⟨t, v⟩ := p
    by_cases ht : t ∈ valid
    · by_cases hskip : skipTun pc gpc
      · simp only [setTunLoop, if_pos ht, if_pos hskip]
        exact ih s
      · simp only [setTunLoop, if_pos ht, if_neg hskip]
        rw [ih]
        by_cases hg : gpc <;> simp [hg]
    · simp [setTunLoop, ht]

lemma setTunLoop_globalTun_of_true (cfg : Cfg) (c : Nat) (gov : String)
    (valid : List String) (pc : Option Bool) (kwargs : List (String × String)) (s : St) :
    (setTunLoop cfg c gov true valid pc kwargs s).1.globalTun = s.globalTun := by
  induction kwargs generalizing s with
  | nil => rfl
  | cons p rest ih =>
    obtain ⟨t, v⟩ := p
    by_cases ht : t ∈ valid
    · by_cases hskip : skipTun pc true
      · simp only [setTunLoop, if_pos ht, if_pos hskip]
        exact ih s
      · simp only [setTunLoop, if_pos ht, if_neg hskip]
        rw [ih]
        simp
    · simp [setTunLoop, ht]

lemma setTunLoop_policyTun_of_false (cfg : Cfg) (c : Nat) (gov : String)
    (valid : List String) (pc : Option Bool) (kwargs : List (String × String)) (s : St) :
    (setTunLoop cfg c gov false valid pc kwargs s).1.policyTun = s.policyTun := by
  induction kwargs generalizing s with
  | nil => rfl
  | cons p rest ih =>
    obtain ⟨t, v⟩ := p
    by_cases ht : t ∈ valid
    · by_cases hskip : skipTun pc false
      · simp only [setTunLoop, if_pos ht, if_pos hskip]
        exact ih s
      · simp only [setTunLoop, if_pos ht, if_neg hskip]
        rw [ih]
        simp
    · simp [setTunLoop, ht]

lemma setTunLoop_state_of_skip (cfg : Cfg) (c : Nat) (gov : String) (gpc : Bool)
    (valid : List String) (pc : Option Bool) (kwargs : List (String × String)) (s : St)
    (h : skipTun pc gpc = true) :
    (setTunLoop cfg c gov gpc valid pc kwargs s).1 = s ∧
    (setTunLoop cfg c gov gpc valid pc kwargs s).2.1 = [] := by
  induction kwargs with
  | nil => exact ⟨rfl, rfl⟩
  | cons p rest ih =>
    obtain ⟨t, v⟩ := p
    by_cases ht : t ∈ valid
    · simpa [setTunLoop, ht, h] using ih
    · simp [setTunLoop, ht]

lemma setTunLoop_ok (cfg : Cfg) (c : Nat) (gov : String) (gpc : Bool)
    (valid : List String) (pc : Option Bool) (kwargs : List (String × String)) (s : St)
    (hvalid : ∀ p ∈ kwargs, p.1 ∈ valid) :
    (setTunLoop cfg c gov gpc valid pc kwargs s).2.2 = Except.ok () := by
  induction kwargs generalizing s with
  | nil => rfl
  | cons p rest ih =>
    obtain ⟨t, v⟩ := p
    have ht : t ∈ valid := hvalid (t, v) (List.mem_cons_self _ _)
    have hrest : ∀ p ∈ rest, p.1 ∈ valid := fun p hp => hvalid p (List.mem_cons_of_mem _ hp)
    by_cases hskip : skipTun pc gpc
    · simp only [setTunLoop, if_pos ht, if_pos hskip]
      exact ih s hrest
    · simp only [setTunLoop, if_pos ht, if_neg hskip]
      exact ih _ hrest

lemma setTunLoop_trace_shapes (cfg : Cfg) (c : Nat) (gov : String) (gpc : Bool)
    (valid : List String) (pc : Option Bool) (kwargs : List (String × String)) (s : St) :
    ∀ e ∈ (setTunLoop cfg c gov gpc valid pc kwargs s).2.1,
      (∃ t v, e = Ev.wTunCpu c gov t v) ∨ (∃ t v, e = Ev.wTunGlobal gov t v) := by
  induction kwargs generalizing s with
  | nil => intro e he; cases he
  | cons p rest ih =>
    obtain ⟨t, v⟩ := p
    intro e he
    by_cases ht : t ∈ valid
    · by_cases hskip : skipTun pc gpc
      · simp only [setTunLoop, if_pos ht, if_pos hskip] at he
        exact ih _ e he
      · simp only [setTunLoop, if_pos ht, if_neg hskip] at he
        rcases List.mem_cons.mp he with rfl | hmem
        · by_cases hg : gpc
          · left; exact ⟨t, v, by simp [hg]⟩
          · right; exact ⟨t, v, by simp [hg]⟩
        · exact ih _ e hmem
    · simp only [setTunLoop, if_neg ht] at he
      cases he

lemma lookupTun_eq_none {t : String} {l : List (String × String)}
    (h : ¬ t ∈ l.map Prod.fst) : lookupTun t l = none := by
  induction l with
  | nil => rfl
  | cons q rest ih =>
    obtain ⟨k, w⟩ := q
    simp only [List.map_cons, List.mem_cons] at h
    push_neg at h
    simp only [lookupTun, if_neg (Ne.symm h.1)]
    exact ih h.2

/-- Final per-policy tunable value after a non-skipping per-policy write
loop: with distinct keys, each key holds its association value; every
other cell is untouched. -/
lemma setTunLoop_policyTun_true (cfg : Cfg) (c : Nat) (gov : String)
    (valid : List String) (pc : Option Bool) (kwargs : List (String × String)) (s : St)
    (hns : skipTun pc true = false)
    (hnodup : (kwargs.map Prod.fst).Nodup)
    (hvalid : ∀ p ∈ kwargs, p.1 ∈ valid)
    (x : Nat) (g u : String) :
    (setTunLoop cfg c gov true valid pc kwargs s).1.policyTun x g u =
      match lookupTun u kwargs with
      | some w => if x ∈ cfg.affected c ∧ g = gov then w else s.policyTun x g u
      | none => s.policyTun x g u := by
  induction kwargs generalizing s with
  | nil => rfl
  | cons p rest ih =>
    obtain ⟨t, v⟩ := p
    have ht : t ∈ valid := hvalid (t, v) (List.mem_cons_self _ _)
    have hrest : ∀ p ∈ rest, p.1 ∈ valid := fun p hp => hvalid p (List.mem_cons_of_mem _ hp)
    have hnodup1 : (rest.map Prod.fst).Nodup := (List.nodup_cons.mp hnodup).2
    have htnotin : ¬ t ∈ rest.map Prod.fst := (List.nodup_cons.mp hnodup).1
    have hskip : ¬ (skipTun pc true = true) := by simp [hns]
    simp only [setTunLoop, if_pos ht, if_neg hskip, if_pos trivial]
    rw [ih _ hnodup1 hrest]
    by_cases hu : t = u
    · subst hu
      have hrlook : lookupTun t rest = none := lookupTun_eq_none htnotin
      simp only [hrlook, lookupTun, if_pos rfl, writePolicyTunCell]
      by_cases hxg : x ∈ cfg.affected c ∧ g = gov
      · simp [hxg]
      · simp [hxg]
    · have hlk : lookupTun u ((t, v) :: rest) = lookupTun u rest := by
        simp [lookupTun, hu]
      rw [hlk]
      have hcell : (writePolicyTunCell cfg c gov t v s).policyTun x g u =
          s.policyTun x g u := by
        simp only [writePolicyTunCell]
        have : ¬ (x ∈ cfg.affected c ∧ g = gov ∧ u = t) := by
          intro hh
          exact hu hh.2.2.symm
        simp only [if_neg this]
      rw [hcell]

/-- Final global tunable value after a non-skipping global write loop. -/
lemma setTunLoop_globalTun_false (cfg : Cfg) (c : Nat) (gov : String)
    (valid : List String) (pc : Option Bool) (kwargs : List (String × String)) (s : St)
    (hns : skipTun pc false = false)
    (hnodup : (kwargs.map Prod.fst).Nodup)
    (hvalid : ∀ p ∈ kwargs, p.1 ∈ valid)
    (g u : String) :
    (setTunLoop cfg c gov false valid pc kwargs s).1.globalTun g u =
      match lookupTun u kwargs with
      | some w => if g = gov then w else s.globalTun g u
      | none => s.globalTun g u := by
  induction kwargs generalizing s with
  | nil => rfl
  | cons p rest ih =>
    obtain ⟨t, v⟩ := p
    have ht : t ∈ valid := hvalid (t, v) (List.mem_cons_self _ _)
    have hrest : ∀ p ∈ rest, p.1 ∈ valid := fun p hp => hvalid p (List.mem_cons_of_mem _ hp)
    have hnodup1 : (rest.map Prod.fst).Nodup := (List.nodup_cons.mp hnodup).2
    have htnotin : ¬ t ∈ rest.map Prod.fst := (List.nodup_cons.mp hnodup).1
    have hskip : ¬ (skipTun pc false = true) := by simp [hns]
    simp only [setTunLoop, if_pos ht, if_neg hskip, Bool.false_eq_true, if_false]
    rw [ih _ hnodup1 hrest]
    by_cases hu : t = u
    · subst hu
      have hrlook : lookupTun t rest = none := lookupTun_eq_none htnotin
      simp only [hrlook, lookupTun, if_pos rfl, writeGlobalTunCell]
      by_cases hg : g = gov
      · simp [hg]
      · simp [hg]
    · have hlk : lookupTun u ((t, v) :: rest) = lookupTun u rest := by
        simp [lookupTun, hu]
      rw [hlk]
      have hcell : (writeGlobalTunCell gov t v s).globalTun g u = s.globalTun g u := by
        simp only [writeGlobalTunCell]
        have : ¬ (g = gov ∧ u = t) := fun hh => hu hh.2.symm
        simp only [if_neg this]
      rw [hcell]

/-! ### Observable-tunables lemmas -/

lemma lookupTun_map_self {l : List String} {f : String → String} {u : String}
    (h : u ∈ l) : lookupTun u (l.map (fun t => (t, f t))) = some (f u) := by
  induction l with
  | nil => cases h
  | cons t rest ih =>
    by_cases ht : t = u
    · subst ht
      simp [lookupTun]
    · have : u ∈ rest := by
        rcases List.mem_cons.mp h with h1 | h1
        · exact absurd h1.symm ht
        · exact h1
      simp only [List.map_cons, lookupTun, if_neg ht]
      exact ih this

lemma lookupTun_map_self_none {l : List String} {f : String → String} {u : String}
    (h : ¬ u ∈ l) : lookupTun u (l.map (fun t => (t, f t))) = none := by
  apply lookupTun_eq_none
  intro hmem
  apply h
  simpa using hmem

lemma obsTun_fst (cfg : Cfg) (s : St) (c : Nat) :
    (obsTun cfg s c).map Prod.fst = tunKeys cfg (s.governor c) := by
  unfold obsTun
  rw [List.map_map]
  have hid : (Prod.fst ∘ fun t => (t, readTunVal cfg s c (s.governor c) t)) = id := rfl
  rw [hid, List.map_id]

lemma tunKeys_nodup {cfg : Cfg} (hwf : WfCfg cfg) (g : String) :
    (tunKeys cfg g).Nodup :=
  (hwf.2.2 g).filter _

lemma tunKeys_subset (cfg : Cfg) (g : String) :
    ∀ t ∈ tunKeys cfg g, t ∈ (cfg.tunables g).2 :=
  fun _ ht => List.mem_of_mem_filter ht

lemma obsTun_fst_valid (cfg : Cfg) (s : St) (c : Nat) :
    ∀ p ∈ obsTun cfg s c, p.1 ∈ (cfg.tunables (s.governor c)).2 := by
  intro p hp
  obtain ⟨t, ht, rfl⟩ := List.mem_map.mp hp
  exact tunKeys_subset cfg _ t ht

lemma obsTun_nodup {cfg : Cfg} (hwf : WfCfg cfg) (s : St) (c : Nat) :
    ((obsTun cfg s c).map Prod.fst).Nodup := by
  rw [obsTun_fst]
  exact tunKeys_nodup hwf _

lemma lookupTun_obsTun {cfg : Cfg} {s : St} {c : Nat} {u : String}
    (h : u ∈ tunKeys cfg (s.governor c)) :
    lookupTun u (obsTun cfg s c) = some (readTunVal cfg s c (s.governor c) u) :=
  lookupTun_map_self h

/-! ### Frame lemmas for `setGovernorTunables`, `setFrequency`, `setGovernor` -/

lemma setGovernorTunables_governor (cfg : Cfg) (c : Nat) (gov? : Option String)
    (pc : Option Bool) (kwargs : List (String × String)) (s : St) :
    (setGovernorTunables cfg c gov? pc kwargs s).1.governor = s.governor := by
  by_cases h : kwargs = []
  · subst h; rfl
  · simp only [setGovernorTunables, if_neg h]
    exact setTunLoop_governor _ _ _ _ _ _ _ _

lemma setGovernorTunables_freq (cfg : Cfg) (c : Nat) (gov? : Option String)
    (pc : Option Bool) (kwargs : List (String × String)) (s : St) :
    (setGovernorTunables cfg c gov? pc kwargs s).1.freq = s.freq := by
  by_cases h : kwargs = []
  · subst h; rfl
  · simp only [setGovernorTunables, if_neg h]
    exact setTunLoop_freq _ _ _ _ _ _ _ _

lemma setGovernorTunables_globalTun_someTrue (cfg : Cfg) (c : Nat)
    (gov? : Option String) (kwargs : List (String × String)) (s : St) :
    (setGovernorTunables cfg c gov? (some true) kwargs s).1.globalTun = s.globalTun := by
  by_cases h : kwargs = []
  · subst h; rfl
  · simp only [setGovernorTunables, if_neg h]
    set gv := (match gov? with
      | some g => (g, ([] : List Ev))
      | none => (s.governor c, [Ev.rGov c])).1 with hgv
    by_cases hpc : (cfg.tunables gv).1
    · rw [hpc]
      exact setTunLoop_globalTun_of_true _ _ _ _ _ _ _
    · have hb : (cfg.tunables gv).1 = false := by
        cases hx : (cfg.tunables gv).1
        · rfl
        · exact absurd hx hpc
      rw [hb]
      have := setTunLoop_state_of_skip cfg c gv false (cfg.tunables gv).2 (some true)
        kwargs s (by rfl)
      rw [this.1]

lemma setGovernorTunables_policyTun_someFalse (cfg : Cfg) (c : Nat)
    (gov? : Option String) (kwargs : List (String × String)) (s : St) :
    (setGovernorTunables cfg c gov? (some false) kwargs s).1.policyTun = s.policyTun := by
  by_cases h : kwargs = []
  · subst h; rfl
  · simp only [setGovernorTunables, if_neg h]
    set gv := (match gov? with
      | some g => (g, ([] : List Ev))
      | none => (s.governor c, [Ev.rGov c])).1 with hgv
    by_cases hpc : (cfg.tunables gv).1
    · rw [hpc]
      have := setTunLoop_state_of_skip cfg c gv true (cfg.tunables gv).2 (some false)
        kwargs s (by rfl)
      rw [this.1]
    · have hb : (cfg.tunables gv).1 = false := by
        cases hx : (cfg.tunables gv).1
        · rfl
        · exact absurd hx hpc
      rw [hb]
      exact setTunLoop_policyTun_of_false _ _ _ _ _ _ _

lemma setGovernorTunables_some_ok (cfg : Cfg) (c : Nat) (g : String)
    (pc : Option Bool) (kwargs : List (String × String)) (s : St)
    (hvalid : ∀ p ∈ kwargs, p.1 ∈ (cfg.tunables g).2) :
    (setGovernorTunables cfg c (some g) pc kwargs s).2.2 = Except.ok () := by
  by_cases h : kwargs = []
  · subst h; rfl
  · simp only [setGovernorTunables, if_neg h]
    exact setTunLoop_ok _ _ _ _ _ _ _ _ hvalid

lemma setFrequency_governor (cfg : Cfg) (c : Nat) (v : Nat) (s : St) :
    (setFrequency cfg c v s).1.governor = s.governor := by
  unfold setFrequency
  split
  · rfl
  · split
    · rfl
    · simp

lemma setFrequency_policyTun (cfg : Cfg) (c : Nat) (v : Nat) (s : St) :
    (setFrequency cfg c v s).1.policyTun = s.policyTun := by
  unfold setFrequency
  split
  · rfl
  · split
    · rfl
    · simp

lemma setFrequency_globalTun (cfg : Cfg) (c : Nat) (v : Nat) (s : St) :
    (setFrequency cfg c v s).1.globalTun = s.globalTun := by
  unfold setFrequency
  split
  · rfl
  · split
    · rfl
    · simp

lemma setFrequency_ok (cfg : Cfg) (c : Nat) (v : Nat) (s : St)
    (hv : cfg.listFreqs c = [] ∨ v ∈ cfg.listFreqs c)
    (hg : s.governor c = "userspace") :
    setFrequency cfg c v s =
      (writeFreqCell cfg c v s, [Ev.rGov c, Ev.wFreq c v, Ev.rFreq c], Except.ok ()) := by
  have h1 : ¬ (cfg.listFreqs c ≠ [] ∧ ¬ v ∈ cfg.listFreqs c) := by
    rcases hv with hv | hv
    · intro hh; exact hh.1 hv
    · intro hh; exact hh.2 hv
  have h2 : ¬ (s.governor c ≠ "userspace") := by
    intro hh; exact hh hg
  simp only [setFrequency, if_neg h1, if_neg h2]

lemma setGovernor_nil (cfg : Cfg) (c : Nat) (g : String) (s : St)
    (h : g ∈ cfg.listGovernors c) :
    setGovernor cfg c g [] s =
      (writeGovCell cfg c g s, [Ev.wGov c g], Except.ok ()) := by
  simp [setGovernor, h, setGovernorTunables]

/-! ### Governor-restore batch lemmas -/

lemma runGovWrites_spec (cfg : Cfg) (args : List (Nat × String)) (s : St)
    (hvalid : ∀ p ∈ args, p.2 ∈ cfg.listGovernors p.1) :
    runGovWrites cfg args s =
      (args.foldl (fun t p => writeGovCell cfg p.1 p.2 t) s,
       args.map (fun p => Ev.wGov p.1 p.2), Except.ok ()) := by
  induction args generalizing s with
  | nil => rfl
  | cons p rest ih =>
    obtain ⟨r, g⟩ := p
    have hg : g ∈ cfg.listGovernors r := hvalid (r, g) (List.mem_cons_self _ _)
    have hrest : ∀ p ∈ rest, p.2 ∈ cfg.listGovernors p.1 :=
      fun p hp => hvalid p (List.mem_cons_of_mem _ hp)
    simp only [runGovWrites, setGovernor_nil cfg r g s hg, ih _ hrest, List.foldl_cons,
      List.map_cons]
    rfl

lemma foldl_writeGov_policyTun (cfg : Cfg) (args : List (Nat × String)) (s : St) :
    (args.foldl (fun t p => writeGovCell cfg p.1 p.2 t) s).policyTun = s.policyTun := by
  induction args generalizing s with
  | nil => rfl
  | cons p rest ih => simp [List.foldl_cons, ih]

lemma foldl_writeGov_globalTun (cfg : Cfg) (args : List (Nat × String)) (s : St) :
    (args.foldl (fun t p => writeGovCell cfg p.1 p.2 t) s).globalTun = s.globalTun := by
  induction args generalizing s with
  | nil => rfl
  | cons p rest ih => simp [List.foldl_cons, ih]

lemma foldl_writeGov_freq (cfg : Cfg) (args : List (Nat × String)) (s : St) :
    (args.foldl (fun t p => writeGovCell cfg p.1 p.2 t) s).freq = s.freq := by
  induction args generalizing s with
  | nil => rfl
  | cons p rest ih => simp [List.foldl_cons, ih]

lemma foldl_writeGov_governor_frame (cfg : Cfg) (args : List (Nat × String)) (s : St)
    (x : Nat) (hx : ∀ p ∈ args, ¬ x ∈ cfg.affected p.1) :
    (args.foldl (fun t p => writeGovCell cfg p.1 p.2 t) s).governor x = s.governor x := by
  induction args generalizing s with
  | nil => rfl
  | cons p rest ih =>
    have hxp := hx p (List.mem_cons_self _ _)
    have hrest : ∀ p ∈ rest, ¬ x ∈ cfg.affected p.1 :=
      fun p hp => hx p (List.mem_cons_of_mem _ hp)
    simp only [List.foldl_cons]
    rw [ih _ hrest]
    simp [writeGovCell, hxp]

lemma foldl_writeGov_governor_eq (cfg : Cfg) (args : List (Nat × String)) (s : St)
    (x : Nat) (g : String)
    (hall : ∀ p ∈ args, x ∈ cfg.affected p.1 → p.2 = g)
    (hex : ∃ p ∈ args, x ∈ cfg.affected p.1) :
    (args.foldl (fun t p => writeGovCell cfg p.1 p.2 t) s).governor x = g := by
  induction args generalizing s with
  | nil =>
    obtain ⟨p, hp, _⟩ := hex
    cases hp
  | cons p rest ih =>
    have hrestall : ∀ q ∈ rest, x ∈ cfg.affected q.1 → q.2 = g :=
      fun q hq => hall q (List.mem_cons_of_mem _ hq)
    by_cases hrest : ∃ q ∈ rest, x ∈ cfg.affected q.1
    · simp only [List.foldl_cons]
      exact ih _ hrestall hrest
    · have hxp : x ∈ cfg.affected p.1 := by
        rcases hex with ⟨q, hq, hxq⟩
        rcases List.mem_cons.mp hq with rfl | hq1
        · exact hxq
        · exact absurd ⟨q, hq1, hxq⟩ hrest
      have hg : p.2 = g := hall p (List.mem_cons_self _ _) hxp
      push_neg at hrest
      simp only [List.foldl_cons]
      rw [foldl_writeGov_governor_frame cfg rest _ x hrest]
      simp [writeGovCell, hxp, hg]

/-! ### Per-cpu restore-task lemmas -/

lemma perCpuTask_policyTun_proj (cfg : Cfg) (infos : List (Nat × CpuInfo)) (r : Nat)
    (u : St) (i : CpuInfo) (hlook : lookupInfo infos r = some i) :
    (perCpuTask cfg infos r u).1.policyTun =
      (setGovernorTunables cfg r (some i.gov) (some true) i.tun u).1.policyTun := by
  simp only [perCpuTask, hlook]
  rcases hqe : setGovernorTunables cfg r (some i.gov) (some true) i.tun u with ⟨s1, tr, out⟩
  cases out with
  | ok _ =>
    by_cases huser : i.gov = "userspace"
    · simp only [if_pos huser]
      exact setFrequency_policyTun _ _ _ _
    · simp only [if_neg huser]
  | error e => rfl

lemma perCpuTask_governor (cfg : Cfg) (infos : List (Nat × CpuInfo)) (r : Nat) (u : St) :
    (perCpuTask cfg infos r u).1.governor = u.governor := by
  cases hl : lookupInfo infos r with
  | none => simp [perCpuTask, hl]
  | some i =>
    have hg := setGovernorTunables_governor cfg r (some i.gov) (some true) i.tun u
    simp only [perCpuTask, hl]
    rcases hqe : setGovernorTunables cfg r (some i.gov) (some true) i.tun u with ⟨s1, tr, out⟩
    rw [hqe] at hg
    cases out with
    | ok _ =>
      by_cases huser : i.gov = "userspace"
      · simp only [if_pos huser]
        rw [setFrequency_governor]
        exact hg
      · simp only [if_neg huser]
        exact hg
    | error e => exact hg

lemma perCpuTask_globalTun (cfg : Cfg) (infos : List (Nat × CpuInfo)) (r : Nat) (u : St) :
    (perCpuTask cfg infos r u).1.globalTun = u.globalTun := by
  cases hl : lookupInfo infos r with
  | none => simp [perCpuTask, hl]
  | some i =>
    have hg := setGovernorTunables_globalTun_someTrue cfg r (some i.gov) i.tun u
    simp only [perCpuTask, hl]
    rcases hqe : setGovernorTunables cfg r (some i.gov) (some true) i.tun u with ⟨s1, tr, out⟩
    rw [hqe] at hg
    cases out with
    | ok _ =>
      by_cases huser : i.gov = "userspace"
      · simp only [if_pos huser]
        rw [setFrequency_globalTun]
        exact hg
      · simp only [if_neg huser]
        exact hg
    | error e => exact hg

lemma perCpuTask_ok (cfg : Cfg) (infos : List (Nat × CpuInfo)) (r : Nat) (s0 u : St)
    (hlook : lookupInfo infos r = some (getCpuInfo cfg r s0).1)
    (hgovu : u.governor r = s0.governor r)
    (hfreqok : cfg.listFreqs r = [] ∨ s0.freq r ∈ cfg.listFreqs r) :
    (perCpuTask cfg infos r u).2.2 = Except.ok () := by
  have hvalid : ∀ p ∈ obsTun cfg s0 r, p.1 ∈ (cfg.tunables (s0.governor r)).2 :=
    obsTun_fst_valid cfg s0 r
  have hok := setGovernorTunables_some_ok cfg r (s0.governor r) (some true)
    (obsTun cfg s0 r) u hvalid
  have hgovfr := setGovernorTunables_governor cfg r (some (s0.governor r)) (some true)
    (obsTun cfg s0 r) u
  simp only [perCpuTask, hlook, getCpuInfo_gov, getCpuInfo_tun, getCpuInfo_freq]
  rcases hqe : setGovernorTunables cfg r (some (s0.governor r)) (some true)
    (obsTun cfg s0 r) u with ⟨s1, tr, out⟩
  rw [hqe] at hok hgovfr
  cases out with
  | ok _ =>
    by_cases huser : s0.governor r = "userspace"
    · simp only [if_pos huser]
      have hs1gov : s1.governor r = "userspace" := by
        have : s1.governor = u.governor := hgovfr
        rw [this, hgovu, huser]
      rw [setFrequency_ok cfg r (s0.freq r) s1 hfreqok hs1gov]
    · simp only [if_neg huser]
  | error e =>
    exact absurd hok (by simp)

/-- Effect of one per-cpu restore task on a per-policy tunable cell. -/
lemma perCpuTask_policyTun (cfg : Cfg) (infos : List (Nat × CpuInfo)) (r : Nat)
    (s0 u : St) (hwf : WfCfg cfg)
    (hlook : lookupInfo infos r = some (getCpuInfo cfg r s0).1)
    (x : Nat) (gq tq : String) :
    (perCpuTask cfg infos r u).1.policyTun x gq tq =
      if x ∈ cfg.affected r ∧ gq = s0.governor r ∧
          (cfg.tunables (s0.governor r)).1 = true ∧ tq ∈ tunKeys cfg (s0.governor r)
      then s0.policyTun r (s0.governor r) tq
      else u.policyTun x gq tq := by
  rw [perCpuTask_policyTun_proj cfg infos r u _ hlook]
  simp only [getCpuInfo_gov, getCpuInfo_tun]
  by_cases hobs : obsTun cfg s0 r = []
  · have hkeys : tunKeys cfg (s0.governor r) = [] := by
      have := obsTun_fst cfg s0 r
      rw [hobs] at this
      exact this.symm
    have hcond : ¬ (x ∈ cfg.affected r ∧ gq = s0.governor r ∧
        (cfg.tunables (s0.governor r)).1 = true ∧ tq ∈ tunKeys cfg (s0.governor r)) := by
      intro hh
      rw [hkeys] at hh
      cases hh.2.2.2
    rw [if_neg hcond, hobs]
    rfl
  · simp only [setGovernorTunables, if_neg hobs]
    by_cases hpc : (cfg.tunables (s0.governor r)).1
    · rw [hpc]
      rw [setTunLoop_policyTun_true cfg r (s0.governor r) _ (some true) _ u rfl
        (obsTun_nodup hwf s0 r) (obsTun_fst_valid cfg s0 r) x gq tq]
      by_cases htq : tq ∈ tunKeys cfg (s0.governor r)
      · rw [lookupTun_obsTun htq]
        by_cases hxg : x ∈ cfg.affected r ∧ gq = s0.governor r
        · simp [readTunVal, hpc, hxg.1, hxg.2, htq]
        · have hcond : ¬ (x ∈ cfg.affected r ∧ gq = s0.governor r ∧
              tq ∈ tunKeys cfg (s0.governor r)) := by
            intro hh
            exact hxg ⟨hh.1, hh.2.1⟩
          simp [hxg, hcond]
      · have hnone : lookupTun tq (obsTun cfg s0 r) = none := by
          apply lookupTun_eq_none
          rw [obsTun_fst]
          exact htq
        rw [hnone]
        simp [htq]
    · have hb : (cfg.tunables (s0.governor r)).1 = false := by
        cases hx : (cfg.tunables (s0.governor r)).1
        · rfl
        · exact absurd hx hpc
      rw [hb]
      have hsk := setTunLoop_state_of_skip cfg r (s0.governor r) false
        (cfg.tunables (s0.governor r)).2 (some true) (obsTun cfg s0 r) u rfl
      rw [hsk.1]
      simp

/-! ### Per-cpu restore-batch lemmas -/

lemma perCpuBatch_governor (cfg : Cfg) (infos : List (Nat × CpuInfo)) :
    ∀ (l : List Nat) (u : St), (perCpuBatch cfg infos l u).1.governor = u.governor := by
  intro l
  induction l with
  | nil => intro u; rfl
  | cons r rest ih =>
    intro u
    have htask := perCpuTask_governor cfg infos r u
    simp only [perCpuBatch]
    rcases hte : perCpuTask cfg infos r u with ⟨s1, tr, out⟩
    rw [hte] at htask
    cases out with
    | ok _ =>
      simp only []
      rw [ih s1]
      exact htask
    | error e => exact htask

lemma perCpuBatch_globalTun (cfg : Cfg) (infos : List (Nat × CpuInfo)) :
    ∀ (l : List Nat) (u : St), (perCpuBatch cfg infos l u).1.globalTun = u.globalTun := by
  intro l
  induction l with
  | nil => intro u; rfl
  | cons r rest ih =>
    intro u
    have htask := perCpuTask_globalTun cfg infos r u
    simp only [perCpuBatch]
    rcases hte : perCpuTask cfg infos r u with ⟨s1, tr, out⟩
    rw [hte] at htask
    cases out with
    | ok _ =>
      simp only []
      rw [ih s1]
      exact htask
    | error e => exact htask

lemma perCpuBatch_ok (cfg : Cfg) (infos : List (Nat × CpuInfo)) (s0 : St) :
    ∀ (l : List Nat) (u : St),
      (∀ r ∈ l, lookupInfo infos r = some (getCpuInfo cfg r s0).1) →
      (∀ r ∈ l, cfg.listFreqs r = [] ∨ s0.freq r ∈ cfg.listFreqs r) →
      (∀ r ∈ l, u.governor r = s0.governor r) →
      (perCpuBatch cfg infos l u).2.2 = Except.ok () := by
  intro l
  induction l with
  | nil => intro u _ _ _; rfl
  | cons r rest ih =>
    intro u hinfo hfreq hgov
    have htaskok := perCpuTask_ok cfg infos r s0 u
      (hinfo r (List.mem_cons_self _ _))
      (hgov r (List.mem_cons_self _ _))
      (hfreq r (List.mem_cons_self _ _))
    have htaskgov := perCpuTask_governor cfg infos r u
    simp only [perCpuBatch]
    rcases hte : perCpuTask cfg infos r u with ⟨s1, tr, out⟩
    rw [hte] at htaskok htaskgov
    cases out with
    | ok _ =>
      simp only []
      apply ih s1 (fun q hq => hinfo q (List.mem_cons_of_mem _ hq))
        (fun q hq => hfreq q (List.mem_cons_of_mem _ hq))
      intro q hq
      rw [show s1.governor = u.governor from htaskgov]
      exact hgov q (List.mem_cons_of_mem _ hq)
    | error e => exact absurd htaskok (by simp)

lemma perCpuBatch_policyTun_preserve (cfg : Cfg) (infos : List (Nat × CpuInfo))
    (s0 : St) (hwf : WfCfg cfg) (hcons : DomConsistent cfg s0) (c : Nat) (tq : String) :
    ∀ (l : List Nat) (u : St),
      (∀ r ∈ l, lookupInfo infos r = some (getCpuInfo cfg r s0).1) →
      u.policyTun c (s0.governor c) tq = s0.policyTun c (s0.governor c) tq →
      (perCpuBatch cfg infos l u).1.policyTun c (s0.governor c) tq =
        s0.policyTun c (s0.governor c) tq := by
  intro l
  induction l with
  | nil => intro u _ hu; exact hu
  | cons r rest ih =>
    intro u hinfo hu
    have htask := perCpuTask_policyTun cfg infos r s0 u hwf
      (hinfo r (List.mem_cons_self _ _)) c (s0.governor c) tq
    have hcell : (perCpuTask cfg infos r u).1.policyTun c (s0.governor c) tq =
        s0.policyTun c (s0.governor c) tq := by
      rw [htask]
      by_cases hcnd : c ∈ cfg.affected r ∧ s0.governor c = s0.governor r ∧
          (cfg.tunables (s0.governor r)).1 = true ∧ tq ∈ tunKeys cfg (s0.governor r)
      · rw [if_pos hcnd]
        have h1 : s0.policyTun c (s0.governor c) tq = s0.policyTun r (s0.governor c) tq :=
          policyTun_eq_of_mem hcons hcnd.1 _ _
        rw [h1, hcnd.2.1]
      · rw [if_neg hcnd]
        exact hu
    simp only [perCpuBatch]
    rcases hte : perCpuTask cfg infos r u with ⟨s1, tr, out⟩
    rw [hte] at hcell
    cases out with
    | ok _ =>
      simp only []
      exact ih s1 (fun q hq => hinfo q (List.mem_cons_of_mem _ hq)) hcell
    | error e => exact hcell

lemma perCpuBatch_policyTun_establish (cfg : Cfg) (infos : List (Nat × CpuInfo))
    (s0 : St) (hwf : WfCfg cfg) (hcons : DomConsistent cfg s0) (c : Nat) (tq : String)
    (hpcpu : (cfg.tunables (s0.governor c)).1 = true)
    (htq : tq ∈ tunKeys cfg (s0.governor c)) :
    ∀ (l : List Nat) (u : St),
      (∀ r ∈ l, lookupInfo infos r = some (getCpuInfo cfg r s0).1) →
      (∀ r ∈ l, cfg.listFreqs r = [] ∨ s0.freq r ∈ cfg.listFreqs r) →
      (∀ r ∈ l, u.governor r = s0.governor r) →
      repOf cfg c ∈ l →
      (perCpuBatch cfg infos l u).1.policyTun c (s0.governor c) tq =
        s0.policyTun c (s0.governor c) tq := by
  intro l
  induction l with
  | nil => intro u _ _ _ hr0; cases hr0
  | cons r rest ih =>
    intro u hinfo hfreq hgovu hr0
    by_cases hcr : c ∈ cfg.affected r
    · -- this task rewrites the cell with its captured (original) value
      have hgoveq : s0.governor c = s0.governor r := governor_eq_of_mem hcons hcr
      have htask := perCpuTask_policyTun cfg infos r s0 u hwf
        (hinfo r (List.mem_cons_self _ _)) c (s0.governor c) tq
      have hcell : (perCpuTask cfg infos r u).1.policyTun c (s0.governor c) tq =
          s0.policyTun c (s0.governor c) tq := by
        rw [htask]
        have hcnd : c ∈ cfg.affected r ∧ s0.governor c = s0.governor r ∧
            (cfg.tunables (s0.governor r)).1 = true ∧
            tq ∈ tunKeys cfg (s0.governor r) := by
          refine ⟨hcr, hgoveq, ?_, ?_⟩
          · rw [← hgoveq]; exact hpcpu
          · rw [← hgoveq]; exact htq
        rw [if_pos hcnd]
        have h1 : s0.policyTun c (s0.governor c) tq = s0.policyTun r (s0.governor c) tq :=
          policyTun_eq_of_mem hcons hcr _ _
        rw [h1, hgoveq]
      simp only [perCpuBatch]
      rcases hte : perCpuTask cfg infos r u with ⟨s1, tr, out⟩
      rw [hte] at hcell
      cases out with
      | ok _ =>
        simp only []
        exact perCpuBatch_policyTun_preserve cfg infos s0 hwf hcons c tq rest s1
          (fun q hq => hinfo q (List.mem_cons_of_mem _ hq)) hcell
      | error e => exact hcell
    · -- the task leaves the cell alone and the representative is further on
      have hr0rest : repOf cfg c ∈ rest := by
        rcases List.mem_cons.mp hr0 with heq | hm
        · exfalso
          apply hcr
          rw [← heq]
          exact mem_affected_repOf hwf c
        · exact hm
      have htask := perCpuTask_policyTun cfg infos r s0 u hwf
        (hinfo r (List.mem_cons_self _ _)) c (s0.governor c) tq
      have hcell : (perCpuTask cfg infos r u).1.policyTun c (s0.governor c) tq =
          u.policyTun c (s0.governor c) tq := by
        rw [htask]
        have hcnd : ¬ (c ∈ cfg.affected r ∧ s0.governor c = s0.governor r ∧
            (cfg.tunables (s0.governor r)).1 = true ∧
            tq ∈ tunKeys cfg (s0.governor r)) := fun hh => hcr hh.1
        rw [if_neg hcnd]
      simp only [perCpuBatch]
      rcases hte : perCpuTask cfg infos r u with ⟨s1, tr, out⟩
      rw [hte] at hcell
      have htaskok := perCpuTask_ok cfg infos r s0 u
        (hinfo r (List.mem_cons_self _ _))
        (hgovu r (List.mem_cons_self _ _))
        (hfreq r (List.mem_cons_self _ _))
      have htaskgov := perCpuTask_governor cfg infos r u
      rw [hte] at htaskok htaskgov
      cases out with
      | ok _ =>
        simp only []
        apply ih s1 (fun q hq => hinfo q (List.mem_cons_of_mem _ hq))
          (fun q hq => hfreq q (List.mem_cons_of_mem _ hq))
          ?_ hr0rest
        intro q hq
        rw [show s1.governor = u.governor from htaskgov]
        exact hgovu q (List.mem_cons_of_mem _ hq)
      | error e => exact absurd htaskok (by simp)

/-! ### Global-tunables dictionary lemmas -/

lemma upsert_mem {k : String} {v : Nat × List (String × String)}
    {acc : List (String × Nat × List (String × String))} {e}
    (h : e ∈ upsert k v acc) : e = (k, v) ∨ e ∈ acc := by
  induction acc with
  | nil =>
    simp only [upsert] at h
    rcases List.mem_singleton.mp h with rfl
    exact Or.inl rfl
  | cons q rest ih =>
    obtain ⟨q1, q2⟩ := q
    simp only [upsert] at h
    by_cases hq : q1 = k
    · rw [if_pos hq] at h
      rcases List.mem_cons.mp h with rfl | hm
      · subst hq; exact Or.inl rfl
      · exact Or.inr (List.mem_cons_of_mem _ hm)
    · rw [if_neg hq] at h
      rcases List.mem_cons.mp h with rfl | hm
      · exact Or.inr (List.mem_cons_self _ _)
      · rcases ih hm with h1 | h1
        · exact Or.inl h1
        · exact Or.inr (List.mem_cons_of_mem _ h1)

lemma upsert_key_self (k : String) (v : Nat × List (String × String))
    (acc : List (String × Nat × List (String × String))) :
    (k, v) ∈ upsert k v acc := by
  induction acc with
  | nil => exact List.mem_singleton.mpr rfl
  | cons q rest ih =>
    obtain ⟨q1, q2⟩ := q
    simp only [upsert]
    by_cases hq : q1 = k
    · subst hq
      rw [if_pos rfl]
      exact List.mem_cons_self _ _
    · rw [if_neg hq]
      exact List.mem_cons_of_mem _ ih

lemma upsert_key_preserved {k' : String}
    {acc : List (String × Nat × List (String × String))}
    (h : ∃ w, (k', w) ∈ acc) (k : String) (v : Nat × List (String × String)) :
    ∃ w', (k', w') ∈ upsert k v acc := by
  induction acc with
  | nil =>
    obtain ⟨w, hw⟩ := h
    cases hw
  | cons q rest ih =>
    obtain ⟨q1, q2⟩ := q
    obtain ⟨w, hw⟩ := h
    simp only [upsert]
    by_cases hq : q1 = k
    · rw [if_pos hq]
      rcases List.mem_cons.mp hw with heq | hm
      · have : k' = q1 := by
          have := congrArg Prod.fst heq
          exact this
        subst this
        exact ⟨v, List.mem_cons_self _ _⟩
      · exact ⟨w, List.mem_cons_of_mem _ hm⟩
    · rw [if_neg hq]
      rcases List.mem_cons.mp hw with heq | hm
      · exact ⟨w, heq ▸ List.mem_cons_self _ _⟩
      · obtain ⟨w', hw'⟩ := ih ⟨w, hm⟩
        exact ⟨w', List.mem_cons_of_mem _ hw'⟩

lemma foldl_upsert_mem (infos : List (Nat × CpuInfo)) :
    ∀ (acc : List (String × Nat × List (String × String))) e,
      e ∈ infos.foldl (fun a p => upsert p.2.gov (p.1, p.2.tun) a) acc →
      (∃ p ∈ infos, e = (p.2.gov, p.1, p.2.tun)) ∨ e ∈ acc := by
  induction infos with
  | nil => intro acc e h; exact Or.inr h
  | cons p rest ih =>
    intro acc e h
    simp only [List.foldl_cons] at h
    rcases ih _ e h with h1 | h1
    · obtain ⟨q, hq, rfl⟩ := h1
      exact Or.inl ⟨q, List.mem_cons_of_mem _ hq, rfl⟩
    · rcases upsert_mem h1 with rfl | h2
      · exact Or.inl ⟨p, List.mem_cons_self _ _, rfl⟩
      · exact Or.inr h2

lemma foldl_upsert_key_preserved (infos : List (Nat × CpuInfo)) :
    ∀ (acc : List (String × Nat × List (String × String))) (k' : String),
      (∃ w, (k', w) ∈ acc) →
      ∃ w', (k', w') ∈ infos.foldl (fun a p => upsert p.2.gov (p.1, p.2.tun) a) acc := by
  induction infos with
  | nil => intro acc k' h; exact h
  | cons p rest ih =>
    intro acc k' h
    simp only [List.foldl_cons]
    exact ih _ k' (upsert_key_preserved h _ _)

lemma globalTunablesDict_mem {infos : List (Nat × CpuInfo)} {e}
    (h : e ∈ globalTunablesDict infos) : ∃ p ∈ infos, e = (p.2.gov, p.1, p.2.tun) := by
  rcases foldl_upsert_mem infos [] e h with h1 | h1
  · exact h1
  · cases h1

lemma globalTunablesDict_key {infos : List (Nat × CpuInfo)} {p}
    (h : p ∈ infos) : ∃ w, (p.2.gov, w) ∈ globalTunablesDict infos := by
  unfold globalTunablesDict
  obtain ⟨l1, l2, rfl⟩ := List.append_of_mem h
  rw [List.foldl_append, List.foldl_cons]
  exact foldl_upsert_key_preserved l2 _ _
    ⟨(p.1, p.2.tun), upsert_key_self _ _ _⟩

/-! ### Global restore-task and batch lemmas -/

lemma globalTask_governor (cfg : Cfg) (e : String × Nat × List (String × String)) (u : St) :
    (globalTask cfg e u).1.governor = u.governor :=
  setGovernorTunables_governor _ _ _ _ _ _

lemma globalTask_policyTun (cfg : Cfg) (e : String × Nat × List (String × String)) (u : St) :
    (globalTask cfg e u).1.policyTun = u.policyTun :=
  setGovernorTunables_policyTun_someFalse _ _ _ _ _

lemma globalTask_freq (cfg : Cfg) (e : String × Nat × List (String × String)) (u : St) :
    (globalTask cfg e u).1.freq = u.freq :=
  setGovernorTunables_freq _ _ _ _ _ _

lemma globalTask_ok (cfg : Cfg) (s0 : St) (cx : Nat) (u : St) :
    (globalTask cfg (s0.governor cx, cx, obsTun cfg s0 cx) u).2.2 = Except.ok () :=
  setGovernorTunables_some_ok cfg cx (s0.governor cx) (some false) (obsTun cfg s0 cx) u
    (obsTun_fst_valid cfg s0 cx)

/-- Effect of one global restore task on a global tunable cell. -/
lemma globalTask_globalTun (cfg : Cfg) (s0 : St) (hwf : WfCfg cfg) (cx : Nat) (u : St)
    (gq tq : String) :
    (globalTask cfg (s0.governor cx, cx, obsTun cfg s0 cx) u).1.globalTun gq tq =
      if gq = s0.governor cx ∧ (cfg.tunables (s0.governor cx)).1 = false ∧
          tq ∈ tunKeys cfg (s0.governor cx)
      then s0.globalTun (s0.governor cx) tq
      else u.globalTun gq tq := by
  unfold globalTask
  by_cases hobs : obsTun cfg s0 cx = []
  · have hkeys : tunKeys cfg (s0.governor cx) = [] := by
      have := obsTun_fst cfg s0 cx
      rw [hobs] at this
      exact this.symm
    have hcond : ¬ (gq = s0.governor cx ∧ (cfg.tunables (s0.governor cx)).1 = false ∧
        tq ∈ tunKeys cfg (s0.governor cx)) := by
      intro hh
      rw [hkeys] at hh
      cases hh.2.2
    rw [if_neg hcond, hobs]
    rfl
  · simp only [setGovernorTunables, if_neg hobs]
    by_cases hpc : (cfg.tunables (s0.governor cx)).1
    · rw [hpc]
      have hsk := setTunLoop_state_of_skip cfg cx (s0.governor cx) true
        (cfg.tunables (s0.governor cx)).2 (some false) (obsTun cfg s0 cx) u rfl
      rw [hsk.1]
      simp
    · have hb : (cfg.tunables (s0.governor cx)).1 = false := by
        cases hx : (cfg.tunables (s0.governor cx)).1
        · rfl
        · exact absurd hx hpc
      rw [hb]
      rw [setTunLoop_globalTun_false cfg cx (s0.governor cx) _ (some false) _ u rfl
        (obsTun_nodup hwf s0 cx) (obsTun_fst_valid cfg s0 cx) gq tq]
      by_cases htq : tq ∈ tunKeys cfg (s0.governor cx)
      · rw [lookupTun_obsTun htq]
        by_cases hg : gq = s0.governor cx
        · simp [hg, htq, readTunVal, hb]
        · have hcond : ¬ (gq = s0.governor cx ∧ (false = false) ∧
              tq ∈ tunKeys cfg (s0.governor cx)) := fun hh => hg hh.1
          simp [hg]
      · have hnone : lookupTun tq (obsTun cfg s0 cx) = none := by
          apply lookupTun_eq_none
          rw [obsTun_fst]
          exact htq
        rw [hnone]
        simp [htq]

lemma globalBatch_governor (cfg : Cfg) :
    ∀ (l : List (String × Nat × List (String × String))) (u : St),
      (globalBatch cfg l u).1.governor = u.governor := by
  intro l
  induction l with
  | nil => intro u; rfl
  | cons e rest ih =>
    intro u
    have htask := globalTask_governor cfg e u
    simp only [globalBatch]
    rcases hte : globalTask cfg e u with ⟨s1, tr, out⟩
    rw [hte] at htask
    cases out with
    | ok _ =>
      simp only []
      rw [ih s1]
      exact htask
    | error e1 => exact htask

lemma globalBatch_policyTun (cfg : Cfg) :
    ∀ (l : List (String × Nat × List (String × String))) (u : St),
      (globalBatch cfg l u).1.policyTun = u.policyTun := by
  intro l
  induction l with
  | nil => intro u; rfl
  | cons e rest ih =>
    intro u
    have htask := globalTask_policyTun cfg e u
    simp only [globalBatch]
    rcases hte : globalTask cfg e u with ⟨s1, tr, out⟩
    rw [hte] at htask
    cases out with
    | ok _ =>
      simp only []
      rw [ih s1]
      exact htask
    | error e1 => exact htask

lemma globalBatch_ok (cfg : Cfg) (s0 : St) :
    ∀ (l : List (String × Nat × List (String × String))) (u : St),
      (∀ e ∈ l, ∃ cx, e = (s0.governor cx, cx, obsTun cfg s0 cx)) →
      (globalBatch cfg l u).2.2 = Except.ok () := by
  intro l
  induction l with
  | nil => intro u _; rfl
  | cons e rest ih =>
    intro u hent
    obtain ⟨cx, rfl⟩ := hent e (List.mem_cons_self _ _)
    have htaskok := globalTask_ok cfg s0 cx u
    simp only [globalBatch]
    rcases hte : globalTask cfg (s0.governor cx, cx, obsTun cfg s0 cx) u with ⟨s1, tr, out⟩
    rw [hte] at htaskok
    cases out with
    | ok _ =>
      simp only []
      exact ih s1 (fun q hq => hent q (List.mem_cons_of_mem _ hq))
    | error e1 => exact absurd htaskok (by simp)

lemma globalBatch_globalTun_preserve (cfg : Cfg) (s0 : St) (hwf : WfCfg cfg)
    (c : Nat) (tq : String) :
    ∀ (l : List (String × Nat × List (String × String))) (u : St),
      (∀ e ∈ l, ∃ cx, e = (s0.governor cx, cx, obsTun cfg s0 cx)) →
      u.globalTun (s0.governor c) tq = s0.globalTun (s0.governor c) tq →
      (globalBatch cfg l u).1.globalTun (s0.governor c) tq =
        s0.globalTun (s0.governor c) tq := by
  intro l
  induction l with
  | nil => intro u _ hu; exact hu
  | cons e rest ih =>
    intro u hent hu
    obtain ⟨cx, rfl⟩ := hent e (List.mem_cons_self _ _)
    have htask := globalTask_globalTun cfg s0 hwf cx u (s0.governor c) tq
    have hcell : (globalTask cfg (s0.governor cx, cx, obsTun cfg s0 cx) u).1.globalTun
        (s0.governor c) tq = s0.globalTun (s0.governor c) tq := by
      rw [htask]
      by_cases hcnd : s0.governor c = s0.governor cx ∧
          (cfg.tunables (s0.governor cx)).1 = false ∧ tq ∈ tunKeys cfg (s0.governor cx)
      · rw [if_pos hcnd, ← hcnd.1]
      · rw [if_neg hcnd]
        exact hu
    simp only [globalBatch]
    rcases hte : globalTask cfg (s0.governor cx, cx, obsTun cfg s0 cx) u with ⟨s1, tr, out⟩
    rw [hte] at hcell
    cases out with
    | ok _ =>
      simp only []
      exact ih s1 (fun q hq => hent q (List.mem_cons_of_mem _ hq)) hcell
    | error e1 => exact hcell

lemma globalBatch_globalTun_establish (cfg : Cfg) (s0 : St) (hwf : WfCfg cfg)
    (c : Nat) (tq : String)
    (hpcf : (cfg.tunables (s0.governor c)).1 = false)
    (htq : tq ∈ tunKeys cfg (s0.governor c)) :
    ∀ (l : List (String × Nat × List (String × String))) (u : St),
      (∀ e ∈ l, ∃ cx, e = (s0.governor cx, cx, obsTun cfg s0 cx)) →
      (∃ e ∈ l, e.1 = s0.governor c) →
      (globalBatch cfg l u).1.globalTun (s0.governor c) tq =
        s0.globalTun (s0.governor c) tq := by
  intro l
  induction l with
  | nil =>
    intro u _ hkey
    obtain ⟨e, he, _⟩ := hkey
    cases he
  | cons e rest ih =>
    intro u hent hkey
    obtain ⟨cx, rfl⟩ := hent e (List.mem_cons_self _ _)
    have htaskok := globalTask_ok cfg s0 cx u
    have htask := globalTask_globalTun cfg s0 hwf cx u (s0.governor c) tq
    by_cases he1 : s0.governor cx = s0.governor c
    · have hcell : (globalTask cfg (s0.governor cx, cx, obsTun cfg s0 cx) u).1.globalTun
          (s0.governor c) tq = s0.globalTun (s0.governor c) tq := by
        rw [htask]
        have hcnd : s0.governor c = s0.governor cx ∧
            (cfg.tunables (s0.governor cx)).1 = false ∧
            tq ∈ tunKeys cfg (s0.governor cx) := by
          refine ⟨he1.symm, ?_, ?_⟩
          · rw [he1]; exact hpcf
          · rw [he1]; exact htq
        rw [if_pos hcnd, he1]
      simp only [globalBatch]
      rcases hte : globalTask cfg (s0.governor cx, cx, obsTun cfg s0 cx) u with ⟨s1, tr, out⟩
      rw [hte] at hcell htaskok
      cases out with
      | ok _ =>
        simp only []
        exact globalBatch_globalTun_preserve cfg s0 hwf c tq rest s1
          (fun q hq => hent q (List.mem_cons_of_mem _ hq)) hcell
      | error e1 => exact absurd htaskok (by simp)
    · have hcell : (globalTask cfg (s0.governor cx, cx, obsTun cfg s0 cx) u).1.globalTun
          (s0.governor c) tq = u.globalTun (s0.governor c) tq := by
        rw [htask]
        have hcnd : ¬ (s0.governor c = s0.governor cx ∧
            (cfg.tunables (s0.governor cx)).1 = false ∧
            tq ∈ tunKeys cfg (s0.governor cx)) := fun hh => he1 hh.1.symm
        rw [if_neg hcnd]
      have hkeyrest : ∃ e ∈ rest, e.1 = s0.governor c := by
        rcases hkey with ⟨e1, he1m, hk⟩
        rcases List.mem_cons.mp he1m with rfl | hm
        · exact absurd hk he1
        · exact ⟨e1, hm, hk⟩
      simp only [globalBatch]
      rcases hte : globalTask cfg (s0.governor cx, cx, obsTun cfg s0 cx) u with ⟨s1, tr, out⟩
      rw [hte] at hcell htaskok
      cases out with
      | ok _ =>
        simp only []
        exact ih s1 (fun q hq => hent q (List.mem_cons_of_mem _ hq)) hkeyrest
      | error e1 => exact absurd htaskok (by simp)

/-! ### Restore-phase round trip -/

lemma restoreGovArgs_spec (cfg : Cfg) (s0 : St) (infos : List (Nat × CpuInfo)) :
    ∀ (l : List Nat),
      (∀ r ∈ l, lookupInfo infos r = some (getCpuInfo cfg r s0).1) →
      restoreGovArgs infos l = Except.ok (l.map (fun r => (r, s0.governor r))) := by
  intro l
  induction l with
  | nil => intro _; rfl
  | cons r rest ih =>
    intro hinfo
    have hr := hinfo r (List.mem_cons_self _ _)
    simp only [restoreGovArgs, hr, ih (fun q hq => hinfo q (List.mem_cons_of_mem _ hq)),
      Except.map, getCpuInfo_gov, List.map_cons]

/-- Round trip of the restore phase: starting from an arbitrary
intermediate state `t` (whatever the apply phase and the body did), the
restore phase of `use_governor` succeeds and puts back, on every
targeted cpu, the captured governor and the captured observable tunable
values. -/
lemma restore_roundtrip (cfg : Cfg) (s0 : St) (cpus : List Nat)
    (hwf : WfCfg cfg) (hst : WfSt cfg s0)
    (hrc : ∀ c ∈ cpus, repOf cfg c ∈ cpus) (t : St) :
    (restorePhase cfg (capture cfg cpus s0).1 ((cpus.map (repOf cfg)).dedup) t).2.2 =
      Except.ok () ∧
    ∀ c ∈ cpus,
      (restorePhase cfg (capture cfg cpus s0).1
        ((cpus.map (repOf cfg)).dedup) t).1.governor c = s0.governor c ∧
      obsTun cfg (restorePhase cfg (capture cfg cpus s0).1
        ((cpus.map (repOf cfg)).dedup) t).1 c = obsTun cfg s0 c := by
  set infos := (capture cfg cpus s0).1 with hinfos
  set doms := (cpus.map (repOf cfg)).dedup with hdoms
  have hcons : DomConsistent cfg s0 := hst.1
  have hdom_cpus : ∀ r ∈ doms, r ∈ cpus := by
    intro r hr
    have hr1 : r ∈ cpus.map (repOf cfg) := List.mem_dedup.mp hr
    obtain ⟨c0, hc0, rfl⟩ := List.mem_map.mp hr1
    exact hrc c0 hc0
  have hinfoAll : ∀ r ∈ doms, lookupInfo infos r = some (getCpuInfo cfg r s0).1 :=
    fun r hr => lookupInfo_capture (hdom_cpus r hr)
  have hrepdom : ∀ c ∈ cpus, repOf cfg c ∈ doms := by
    intro c hc
    exact List.mem_dedup.mpr (List.mem_map.mpr ⟨c, hc, rfl⟩)
  -- step 1: the governor-restore arguments
  have hargs : restoreGovArgs infos doms =
      Except.ok (doms.map (fun r => (r, s0.governor r))) :=
    restoreGovArgs_spec cfg s0 infos doms hinfoAll
  set args := doms.map (fun r => (r, s0.governor r)) with hargsdef
  have hargsvalid : ∀ p ∈ args, p.2 ∈ cfg.listGovernors p.1 := by
    intro p hp
    obtain ⟨r, _, rfl⟩ := List.mem_map.mp hp
    exact hst.2.1 r
  -- step 2: the governor-restore batch
  have hrun := runGovWrites_spec cfg args t hargsvalid
  set s3 := args.foldl (fun u p => writeGovCell cfg p.1 p.2 u) t with hs3
  have hgov3 : ∀ c ∈ cpus, s3.governor c = s0.governor c := by
    intro c hc
    apply foldl_writeGov_governor_eq
    · intro p hp hcp
      obtain ⟨r, _, rfl⟩ := List.mem_map.mp hp
      exact (governor_eq_of_mem hcons hcp).symm
    · refine ⟨(repOf cfg c, s0.governor (repOf cfg c)), ?_, ?_⟩
      · exact List.mem_map.mpr ⟨repOf cfg c, hrepdom c hc, rfl⟩
      · exact mem_affected_repOf hwf c
  -- step 3: the per-cpu tunable batch
  have hgov3doms : ∀ r ∈ doms, s3.governor r = s0.governor r :=
    fun r hr => hgov3 r (hdom_cpus r hr)
  have hfreqok : ∀ r ∈ doms, cfg.listFreqs r = [] ∨ s0.freq r ∈ cfg.listFreqs r :=
    fun r _ => hst.2.2 r
  have hbatchok := perCpuBatch_ok cfg infos s0 doms s3 hinfoAll hfreqok hgov3doms
  -- step 4: the global tunable batch
  have hentAll : ∀ e ∈ globalTunablesDict infos,
      ∃ cx, e = (s0.governor cx, cx, obsTun cfg s0 cx) := by
    intro e he
    obtain ⟨p, hp, rfl⟩ := globalTunablesDict_mem he
    rw [hinfos, capture_fst] at hp
    obtain ⟨c0, _, rfl⟩ := List.mem_map.mp hp
    exact ⟨c0, by simp⟩
  have hkeyAll : ∀ c ∈ cpus, ∃ e ∈ globalTunablesDict infos, e.1 = s0.governor c := by
    intro c hc
    have hp : (c, (getCpuInfo cfg c s0).1) ∈ infos := by
      rw [hinfos, capture_fst]
      exact List.mem_map.mpr ⟨c, hc, rfl⟩
    obtain ⟨w, hw⟩ := globalTunablesDict_key hp
    exact ⟨((c, (getCpuInfo cfg c s0).1).2.gov, w), hw, by simp⟩
  -- assemble the restore phase
  rcases hpb : perCpuBatch cfg infos doms s3 with ⟨s4, tr2, out2⟩
  rw [hpb] at hbatchok
  have hout2 : out2 = Except.ok () := hbatchok
  subst hout2
  have hres : restorePhase cfg infos doms t =
      ((globalBatch cfg (globalTunablesDict infos) s4).1,
        args.map (fun p => Ev.wGov p.1 p.2) ++ tr2 ++
          (globalBatch cfg (globalTunablesDict infos) s4).2.1,
        (globalBatch cfg (globalTunablesDict infos) s4).2.2) := by
    unfold restorePhase
    rw [hargs]
    simp only [hrun, hpb]
  rw [hres]
  have hgball := globalBatch_ok cfg s0 (globalTunablesDict infos) s4 hentAll
  refine ⟨hgball, ?_⟩
  intro c hc
  -- final governor value on cpu `c`
  have hs4gov : s4.governor = s3.governor := by
    have := perCpuBatch_governor cfg infos doms s3
    rw [hpb] at this
    exact this
  have hgovfin : (globalBatch cfg (globalTunablesDict infos) s4).1.governor c =
      s0.governor c := by
    rw [globalBatch_governor, hs4gov]
    exact hgov3 c hc
  refine ⟨hgovfin, ?_⟩
  -- observable tunables on cpu `c`
  have hs4pol : s4.policyTun = (perCpuBatch cfg infos doms s3).1.policyTun := by
    rw [hpb]
  have hread : ∀ tq ∈ tunKeys cfg (s0.governor c),
      readTunVal cfg (globalBatch cfg (globalTunablesDict infos) s4).1 c
        (s0.governor c) tq = readTunVal cfg s0 c (s0.governor c) tq := by
    intro tq htq
    unfold readTunVal
    by_cases hpc : (cfg.tunables (s0.governor c)).1
    · rw [if_pos hpc, if_pos hpc]
      rw [globalBatch_policyTun]
      rw [hs4pol]
      exact perCpuBatch_policyTun_establish cfg infos s0 hwf hcons c tq hpc htq doms s3
        hinfoAll hfreqok hgov3doms (hrepdom c hc)
    · rw [if_neg hpc, if_neg hpc]
      have hb : (cfg.tunables (s0.governor c)).1 = false := by
        cases hx : (cfg.tunables (s0.governor c)).1
        · rfl
        · exact absurd hx hpc
      exact globalBatch_globalTun_establish cfg s0 hwf c tq hb htq
        (globalTunablesDict infos) s4 hentAll (hkeyAll c hc)
  unfold obsTun
  rw [hgovfin]
  apply List.map_congr_left
  intro tq htq
  rw [hread tq htq]

/-! ### Apply-phase lemmas -/

lemma setGovernor_ok_res (cfg : Cfg) (c : Nat) (gov : String)
    (kwargs : List (String × String)) (s : St)
    (h : gov ∈ cfg.listGovernors c)
    (hkw : ∀ p ∈ kwargs, p.1 ∈ (cfg.tunables gov).2) :
    (setGovernor cfg c gov kwargs s).2.2 = Except.ok () := by
  simp only [setGovernor, if_pos h]
  exact setGovernorTunables_some_ok cfg c gov none kwargs _ hkw

lemma applyGovernorPhase_ok (cfg : Cfg) (gov : String) (kwargs : List (String × String)) :
    ∀ (l : List Nat) (s : St),
      (∀ r ∈ l, gov ∈ cfg.listGovernors r) →
      (∀ p ∈ kwargs, p.1 ∈ (cfg.tunables gov).2) →
      (applyGovernorPhase cfg gov kwargs l s).2.2 = Except.ok () := by
  intro l
  induction l with
  | nil => intro s _ _; rfl
  | cons r rest ih =>
    intro s hgov hkw
    have hok := setGovernor_ok_res cfg r gov kwargs s (hgov r (List.mem_cons_self _ _)) hkw
    simp only [applyGovernorPhase]
    rcases hte : setGovernor cfg r gov kwargs s with ⟨s1, tr, out⟩
    rw [hte] at hok
    cases out with
    | ok _ =>
      simp only []
      exact ih s1 (fun q hq => hgov q (List.mem_cons_of_mem _ hq)) hkw
    | error e => exact absurd hok (by simp)

/-! ### C1 and C2: the round trip of `use_governor` -/

/-- C1 (amended): for every well-formed device topology, every reachable
pre-call state, every nonempty target cpu list that contains the domain
representative (first `affected_cpus` entry) of each of its members,
every governor supported on those representatives with valid
accompanying tunables, and every body that returns normally,
`use_governor` returns without error and afterwards every targeted cpu
has the governor and the observable governor-tunable values it had
before the call.  (The claim as frozen quantifies over arbitrary device
sets; it fails when a targeted cpu's domain representative is not itself
targeted — see the counterexample — so the representative-closure
condition is added.) -/
theorem claim1_roundtrip (cfg : Cfg) (gov : String) (kwargs : List (String × String))
    (cpus : List Nat) (body : St → St × Except (List Exc) Unit) (s0 : St)
    (hwf : WfCfg cfg) (hst : WfSt cfg s0) (hne : cpus ≠ [])
    (hrc : ∀ c ∈ cpus, repOf cfg c ∈ cpus)
    (hgov : ∀ c ∈ cpus, gov ∈ cfg.listGovernors (repOf cfg c))
    (hkw : ∀ p ∈ kwargs, p.1 ∈ (cfg.tunables gov).2)
    (hbody : ∀ u, (body u).2 = Except.ok ()) :
    (useGovernor cfg gov kwargs cpus body s0).2.2 = Except.ok () ∧
    ∀ c ∈ cpus,
      (useGovernor cfg gov kwargs cpus body s0).1.governor c = s0.governor c ∧
      obsTun cfg (useGovernor cfg gov kwargs cpus body s0).1 c = obsTun cfg s0 c := by
  have hgovdoms : ∀ r ∈ (cpus.map (repOf cfg)).dedup, gov ∈ cfg.listGovernors r := by
    intro r hr
    obtain ⟨c0, hc0, rfl⟩ := List.mem_map.mp (List.mem_dedup.mp hr)
    exact hgov c0 hc0
  rcases hap : applyGovernorPhase cfg gov kwargs ((cpus.map (repOf cfg)).dedup) s0
    with ⟨s1, tr1, out1⟩
  have hok1 : out1 = Except.ok () := by
    have := applyGovernorPhase_ok cfg gov kwargs ((cpus.map (repOf cfg)).dedup) s0
      hgovdoms hkw
    rw [hap] at this
    exact this
  subst hok1
  rcases hb : body s1 with ⟨s2, bres⟩
  have hbres : bres = Except.ok () := by
    have := hbody s1
    rw [hb] at this
    exact this
  subst hbres
  obtain ⟨hrok, hrprops⟩ := restore_roundtrip cfg s0 cpus hwf hst hrc s2
  have huse : (useGovernor cfg gov kwargs cpus body s0).1 =
      (restorePhase cfg (capture cfg cpus s0).1 ((cpus.map (repOf cfg)).dedup) s2).1 ∧
      (useGovernor cfg gov kwargs cpus body s0).2.2 = Except.ok () := by
    constructor <;>
      · simp only [useGovernor, if_neg hne, domainsOf_capture hwf cpus s0, hap, hb, hrok]
  refine ⟨huse.2, ?_⟩
  intro c hc
  rw [huse.1]
  exact hrprops c hc

/-- Shared counterexample device for C1/C2: one frequency domain
`{0, 1}` whose representative (first affected cpu) is 0, with
`use_governor` targeted at `[1]` only. -/
def cfgNoRep : Cfg where
  online := [0, 1]
  affected := fun _ => [0, 1]
  listGovernors := fun _ => ["ondemand", "performance"]
  tunables := fun _ => (false, [])
  listFreqs := fun _ => []

/-- Pre-call state for the counterexamples: every cpu on governor
`ondemand`. -/
def stOnd : St where
  governor := fun _ => "ondemand"
  policyTun := fun _ _ _ => ""
  globalTun := fun _ _ => ""
  freq := fun _ => 0

/-- C1, counterexample to the claim as frozen: with one domain `{0,1}`
and `use_governor("performance", [1], body)` whose body returns
normally, the restore phase looks up `cpus_infos[0]` for the domain
representative 0, which was never captured: the operation raises
`KeyError` and exits with cpu 1 still on `performance`, not on its
pre-call governor `ondemand`. -/
theorem claim1_counterexample :
    (useGovernor cfgNoRep "performance" [] [1]
        (fun u => (u, Except.ok ())) stOnd).2.2 = Except.error [Exc.keyError 0] ∧
    (useGovernor cfgNoRep "performance" [] [1]
        (fun u => (u, Except.ok ())) stOnd).1.governor 1 = "performance" ∧
    stOnd.governor 1 = "ondemand" :=
  ⟨rfl, rfl, rfl⟩

/-- C2 (amended): same setting as the amended C1, but the body raises:
the restore phase still runs and succeeds — every targeted cpu gets its
captured governor and tunable values back — and the exception surfaced
by `use_governor` is exactly the body's. -/
theorem claim2_restore_on_failure (cfg : Cfg) (gov : String)
    (kwargs : List (String × String)) (cpus : List Nat)
    (body : St → St × Except (List Exc) Unit) (s0 : St) (es : List Exc)
    (hwf : WfCfg cfg) (hst : WfSt cfg s0) (hne : cpus ≠ [])
    (hrc : ∀ c ∈ cpus, repOf cfg c ∈ cpus)
    (hgov : ∀ c ∈ cpus, gov ∈ cfg.listGovernors (repOf cfg c))
    (hkw : ∀ p ∈ kwargs, p.1 ∈ (cfg.tunables gov).2)
    (hbody : ∀ u, (body u).2 = Except.error es) :
    (useGovernor cfg gov kwargs cpus body s0).2.2 = Except.error es ∧
    ∀ c ∈ cpus,
      (useGovernor cfg gov kwargs cpus body s0).1.governor c = s0.governor c ∧
      obsTun cfg (useGovernor cfg gov kwargs cpus body s0).1 c = obsTun cfg s0 c := by
  have hgovdoms : ∀ r ∈ (cpus.map (repOf cfg)).dedup, gov ∈ cfg.listGovernors r := by
    intro r hr
    obtain ⟨c0, hc0, rfl⟩ := List.mem_map.mp (List.mem_dedup.mp hr)
    exact hgov c0 hc0
  rcases hap : applyGovernorPhase cfg gov kwargs ((cpus.map (repOf cfg)).dedup) s0
    with ⟨s1, tr1, out1⟩
  have hok1 : out1 = Except.ok () := by
    have := applyGovernorPhase_ok cfg gov kwargs ((cpus.map (repOf cfg)).dedup) s0
      hgovdoms hkw
    rw [hap] at this
    exact this
  subst hok1
  rcases hb : body s1 with ⟨s2, bres⟩
  have hbres : bres = Except.error es := by
    have := hbody s1
    rw [hb] at this
    exact this
  subst hbres
  obtain ⟨hrok, hrprops⟩ := restore_roundtrip cfg s0 cpus hwf hst hrc s2
  have huse : (useGovernor cfg gov kwargs cpus body s0).1 =
      (restorePhase cfg (capture cfg cpus s0).1 ((cpus.map (repOf cfg)).dedup) s2).1 ∧
      (useGovernor cfg gov kwargs cpus body s0).2.2 = Except.error es := by
    constructor <;>
      · simp only [useGovernor, if_neg hne, domainsOf_capture hwf cpus s0, hap, hb, hrok]
  refine ⟨huse.2, ?_⟩
  intro c hc
  rw [huse.1]
  exact hrprops c hc

/-- C2, counterexample to the claim as frozen: with one domain `{0,1}`
targeted at `[1]` only and a body that raises `userError 3`, the restore
phase crashes with `KeyError` before restoring anything: cpu 1 keeps the
overridden governor and the surfaced exception is the `KeyError`, with
the body's exception merely chained behind it. -/
theorem claim2_counterexample :
    (useGovernor cfgNoRep "performance" [] [1]
        (fun u => (u, Except.error [Exc.userError 3])) stOnd).2.2 =
      Except.error [Exc.keyError 0, Exc.userError 3] ∧
    (useGovernor cfgNoRep "performance" [] [1]
        (fun u => (u, Except.error [Exc.userError 3])) stOnd).1.governor 1 =
      "performance" ∧
    stOnd.governor 1 = "ondemand" :=
  ⟨rfl, rfl, rfl⟩

/-! ### C3: exception priority between the body and the restore phase -/

/-- Counterexample device for C3: one cpu whose currently running
governor (`ondemand`) is not in its supported-governor list, so the
governor-restore write of the restore phase raises
`TargetStableError`. -/
def cfgC3 : Cfg where
  online := [0]
  affected := fun _ => [0]
  listGovernors := fun _ => ["performance"]
  tunables := fun _ => (false, [])
  listFreqs := fun _ => []

/-- C3, counterexample: when the body raises (`userError 7`) and the
restore phase subsequently also raises (`TargetStableError` because the
captured governor is unsupported), the exception surfaced to the caller
(the head of the error chain) is the restore-phase exception, not the
body's: a `finally` block that raises replaces the in-flight exception,
attaching it as `__context__`.  The two exceptions are distinct, so the
surfaced one is not the body's. -/
theorem claim3_counterexample :
    (useGovernor cfgC3 "performance" [] [0]
        (fun u => (u, Except.error [Exc.userError 7])) stOnd).2.2 =
      Except.error [Exc.targetStableError (govErrMsg "ondemand" 0), Exc.userError 7] ∧
    Exc.targetStableError (govErrMsg "ondemand" 0) ≠ Exc.userError 7 :=
  ⟨rfl, by decide⟩

/-- C3 (amended): if the body raises and the restore phase also raises,
the exception surfaced by `use_governor` is the restore-phase
(`finally`) exception, and the body's exception is attached behind it as
the context/secondary error — the opposite priority of the frozen
claim.  Stated on the `cfgC3` device, where the governor-restore write
always fails, for an arbitrary body exception chain `es`. -/
theorem claim3_finally_priority (es : List Exc)
    (body : St → St × Except (List Exc) Unit)
    (hbody : ∀ u, (body u).2 = Except.error es) :
    (useGovernor cfgC3 "performance" [] [0] body stOnd).2.2 =
      Except.error (Exc.targetStableError (govErrMsg "ondemand" 0) :: es) := by
  rcases hap : applyGovernorPhase cfgC3 "performance" [] [0] stOnd with ⟨s1, tr1, out1⟩
  have hok1 : out1 = Except.ok () := by
    have : (applyGovernorPhase cfgC3 "performance" [] [0] stOnd).2.2 = Except.ok () := rfl
    rw [hap] at this
    exact this
  subst hok1
  rcases hb : body s1 with ⟨s2, bres⟩
  have hbres : bres = Except.error es := by
    have := hbody s1
    rw [hb] at this
    exact this
  subst hbres
  have hres : restorePhase cfgC3 (capture cfgC3 [0] stOnd).1 [0] s2 =
      (s2, [], Except.error [Exc.targetStableError (govErrMsg "ondemand" 0)]) := by
    unfold restorePhase
    rw [show restoreGovArgs (capture cfgC3 [0] stOnd).1 [0] =
      Except.ok [(0, "ondemand")] from rfl]
    have hmem : ¬ "ondemand" ∈ cfgC3.listGovernors 0 := by decide
    simp only [runGovWrites, setGovernor, if_neg hmem]
  have hdomains : domainsOf (capture cfgC3 [0] stOnd).1 = Except.ok [0] := rfl
  have hne : ¬ (([0] : List Nat) = []) := by decide
  simp only [useGovernor, if_neg hne, hdomains, hap, hb, hres]
  rfl

/-- Witness for the amended C3: a body raising `userError 0`. -/
theorem claim3_finally_priority_witness :
    (useGovernor cfgC3 "performance" [] [0]
        (fun u => (u, Except.error [Exc.userError 0])) stOnd).2.2 =
      Except.error [Exc.targetStableError (govErrMsg "ondemand" 0), Exc.userError 0] :=
  claim3_finally_priority [Exc.userError 0] _ (fun _ => rfl)

/-! ### Witness device for the amended C1/C2 (and C5/C7/C8) -/

/-- Witness device: two frequency domains `{0,1}` (representative 0,
running `userspace`) and `{2,3}` (representative 2, running `ondemand`
with one per-cpu tunable `sampling_rate`). -/
def cfgW : Cfg where
  online := [0, 1, 2, 3]
  affected := fun c => if c < 2 then [0, 1] else if c < 4 then [2, 3] else [c]
  listGovernors := fun _ => ["userspace", "performance", "ondemand"]
  tunables := fun g => if g = "ondemand" then (true, ["sampling_rate"]) else (false, [])
  listFreqs := fun _ => []

/-- Witness pre-call state for `cfgW`. -/
def stW : St where
  governor := fun c => if c < 2 then "userspace" else "ondemand"
  policyTun := fun _ _ _ => "42"
  globalTun := fun _ _ => "7"
  freq := fun _ => 1000

lemma cfgW_wf : WfCfg cfgW := by
  refine ⟨?_, ?_, ?_⟩
  · intro c
    show c ∈ (if c < 2 then [0, 1] else if c < 4 then [2, 3] else [c])
    by_cases h2 : c < 2
    · have : c = 0 ∨ c = 1 := by omega
      rcases this with rfl | rfl <;> simp
    · by_cases h4 : c < 4
      · have : c = 2 ∨ c = 3 := by omega
        rcases this with rfl | rfl <;> simp [h2]
      · simp [h2, h4]
  · intro c cx hcx
    have hcx1 : cx ∈ (if c < 2 then [0, 1] else if c < 4 then [2, 3] else [c]) := hcx
    by_cases h2 : c < 2
    · rw [if_pos h2] at hcx1
      have : cx = 0 ∨ cx = 1 := by simpa using hcx1
      have hx2 : cx < 2 := by omega
      simp [cfgW, h2, hx2]
    · by_cases h4 : c < 4
      · rw [if_neg h2, if_pos h4] at hcx1
        have : cx = 2 ∨ cx = 3 := by simpa using hcx1
        have hx2 : ¬ cx < 2 := by omega
        have hx4 : cx < 4 := by omega
        simp [cfgW, h2, h4, hx2, hx4]
      · rw [if_neg h2, if_neg h4] at hcx1
        have : cx = c := by simpa using hcx1
        subst this
        rfl
  · intro g
    show ((if g = "ondemand" then (true, ["sampling_rate"]) else (false, [])).2).Nodup
    by_cases hg : g = "ondemand"
    · simp [hg]
    · simp [hg]

lemma stW_wf : WfSt cfgW stW := by
  refine ⟨?_, ?_, ?_⟩
  · intro c cx hcx
    have hcx1 : cx ∈ (if c < 2 then [0, 1] else if c < 4 then [2, 3] else [c]) := hcx
    by_cases h2 : c < 2
    · rw [if_pos h2] at hcx1
      have : cx = 0 ∨ cx = 1 := by simpa using hcx1
      have hx2 : cx < 2 := by omega
      refine ⟨?_, fun g t => rfl, rfl⟩
      simp [stW, h2, hx2]
    · by_cases h4 : c < 4
      · rw [if_neg h2, if_pos h4] at hcx1
        have : cx = 2 ∨ cx = 3 := by simpa using hcx1
        have hx2 : ¬ cx < 2 := by omega
        refine ⟨?_, fun g t => rfl, rfl⟩
        simp [stW, h2, hx2]
      · rw [if_neg h2, if_neg h4] at hcx1
        have : cx = c := by simpa using hcx1
        subst this
        exact ⟨rfl, fun g t => rfl, rfl⟩
  · intro c
    show (if c < 2 then "userspace" else "ondemand") ∈ ["userspace", "performance", "ondemand"]
    by_cases h2 : c < 2
    · simp [h2]
    · simp [h2]
  · intro c
    exact Or.inl rfl

/-- Witness for the amended C1: the round trip on the two-domain device
`cfgW`, overriding all four cpus with `performance`. -/
theorem claim1_roundtrip_witness :
    (useGovernor cfgW "performance" [] [0, 1, 2, 3]
        (fun u => (u, Except.ok ())) stW).2.2 = Except.ok () ∧
    ∀ c ∈ [0, 1, 2, 3],
      (useGovernor cfgW "performance" [] [0, 1, 2, 3]
          (fun u => (u, Except.ok ())) stW).1.governor c = stW.governor c ∧
      obsTun cfgW (useGovernor cfgW "performance" [] [0, 1, 2, 3]
          (fun u => (u, Except.ok ())) stW).1 c = obsTun cfgW stW c :=
  claim1_roundtrip cfgW "performance" [] [0, 1, 2, 3] _ stW cfgW_wf stW_wf
    (by decide) (by decide) (by decide)
    (fun p hp => absurd hp (by simp)) (fun _ => rfl)

/-- Witness for the amended C2: as the C1 witness, with a body raising
`userError 5`. -/
theorem claim2_restore_on_failure_witness :
    (useGovernor cfgW "performance" [] [0, 1, 2, 3]
        (fun u => (u, Except.error [Exc.userError 5])) stW).2.2 =
      Except.error [Exc.userError 5] ∧
    ∀ c ∈ [0, 1, 2, 3],
      (useGovernor cfgW "performance" [] [0, 1, 2, 3]
          (fun u => (u, Except.error [Exc.userError 5])) stW).1.governor c =
        stW.governor c ∧
      obsTun cfgW (useGovernor cfgW "performance" [] [0, 1, 2, 3]
          (fun u => (u, Except.error [Exc.userError 5])) stW).1 c = obsTun cfgW stW c :=
  claim2_restore_on_failure cfgW "performance" [] [0, 1, 2, 3] _ stW
    [Exc.userError 5] cfgW_wf stW_wf
    (by decide) (by decide) (by decide)
    (fun p hp => absurd hp (by simp)) (fun _ => rfl)

/-! ### Trace predicates and apply-phase trace lemmas (C5) -/

/-- Is the event a `scaling_governor` write? -/
def Ev.isGovWrite : Ev → Bool
  | Ev.wGov _ _ => true
  | _ => false

/-- Is the event a tunable write (per-policy or global)? -/
def Ev.isTunWrite : Ev → Bool
  | Ev.wTunCpu _ _ _ _ => true
  | Ev.wTunGlobal _ _ _ => true
  | _ => false

/-- Is the event a governor write landing in cpu `c`'s frequency domain? -/
def isDomGovWrite (cfg : Cfg) (c : Nat) : Ev → Bool
  | Ev.wGov x _ => decide (x ∈ cfg.affected c)
  | _ => false

lemma mem_affected_symm {cfg : Cfg} (hwf : WfCfg cfg) {x c : Nat}
    (h : x ∈ cfg.affected c) : c ∈ cfg.affected x := by
  rw [hwf.2.1 c x h]
  exact hwf.1 c

lemma setGovernorTunables_trace_shapes (cfg : Cfg) (c : Nat) (g : String)
    (pc : Option Bool) (kwargs : List (String × String)) (s : St) :
    ∀ e ∈ (setGovernorTunables cfg c (some g) pc kwargs s).2.1,
      (∃ t v, e = Ev.wTunCpu c g t v) ∨ (∃ t v, e = Ev.wTunGlobal g t v) := by
  by_cases h : kwargs = []
  · subst h
    intro e he
    cases he
  · simp only [setGovernorTunables, if_neg h]
    intro e he
    exact setTunLoop_trace_shapes cfg c g _ _ pc kwargs s e he

lemma filter_eq_nil_of_forall {α : Type} {l : List α} {p : α → Bool}
    (h : ∀ e ∈ l, p e = false) : l.filter p = [] := by
  induction l with
  | nil => rfl
  | cons e rest ih =>
    have he := h e (List.mem_cons_self _ _)
    simp only [List.filter_cons, he]
    exact ih (fun x hx => h x (List.mem_cons_of_mem _ hx))

lemma setGovernor_trace_filter (cfg : Cfg) (r : Nat) (gov : String)
    (kwargs : List (String × String)) (s : St) (c : Nat)
    (hsup : gov ∈ cfg.listGovernors r) :
    (setGovernor cfg r gov kwargs s).2.1.filter (isDomGovWrite cfg c) =
      if r ∈ cfg.affected c then [Ev.wGov r gov] else [] := by
  simp only [setGovernor, if_pos hsup]
  have htun : ∀ e ∈ (setGovernorTunables cfg r (some gov) none kwargs
      (writeGovCell cfg r gov s)).2.1, isDomGovWrite cfg c e = false := by
    intro e he
    rcases setGovernorTunables_trace_shapes cfg r gov none kwargs _ e he with
      ⟨t, v, rfl⟩ | ⟨t, v, rfl⟩ <;> rfl
  simp only [List.filter_cons]
  rw [filter_eq_nil_of_forall htun]
  by_cases hr : r ∈ cfg.affected c
  · simp [isDomGovWrite, hr]
  · simp [isDomGovWrite, hr]

lemma applyGovernorPhase_trace_filter (cfg : Cfg) (gov : String)
    (kwargs : List (String × String)) (c : Nat) :
    ∀ (l : List Nat) (s : St),
      (∀ r ∈ l, gov ∈ cfg.listGovernors r) →
      (∀ p ∈ kwargs, p.1 ∈ (cfg.tunables gov).2) →
      (applyGovernorPhase cfg gov kwargs l s).2.1.filter (isDomGovWrite cfg c) =
        (l.filter (fun r => decide (r ∈ cfg.affected c))).map
          (fun r => Ev.wGov r gov) := by
  intro l
  induction l with
  | nil => intro s _ _; rfl
  | cons r rest ih =>
    intro s hsup hkw
    have hr := hsup r (List.mem_cons_self _ _)
    have hok := setGovernor_ok_res cfg r gov kwargs s hr hkw
    have hfil := setGovernor_trace_filter cfg r gov kwargs s c hr
    simp only [applyGovernorPhase]
    rcases hte : setGovernor cfg r gov kwargs s with ⟨s1, tr, out⟩
    rw [hte] at hok hfil
    cases out with
    | ok _ =>
      simp only [List.filter_cons, List.filter_append]
      rw [hfil, ih s1 (fun q hq => hsup q (List.mem_cons_of_mem _ hq)) hkw]
      by_cases hrc : r ∈ cfg.affected c
      · simp [hrc]
      · simp [hrc]
    | error e => exact absurd hok (by simp)

lemma filter_singleton_of_unique {l : List Nat} {p : Nat → Bool} {a : Nat}
    (hnodup : l.Nodup) (ha : a ∈ l) (hiff : ∀ x ∈ l, (p x = true ↔ x = a)) :
    l.filter p = [a] := by
  induction l with
  | nil => cases ha
  | cons x rest ih =>
    have hnd := List.nodup_cons.mp hnodup
    by_cases hx : x = a
    · subst hx
      have hpx : p x = true := (hiff x (List.mem_cons_self _ _)).mpr rfl
      simp only [List.filter_cons, hpx, if_pos]
      have : rest.filter p = [] := by
        apply filter_eq_nil_of_forall
        intro e he
        cases hq : p e
        · rfl
        · exact absurd ((hiff e (List.mem_cons_of_mem _ he)).mp hq ▸ he) hnd.1
      rw [this]
    · have hpx : p x = false := by
        cases hq : p x
        · rfl
        · exact absurd ((hiff x (List.mem_cons_self _ _)).mp hq) hx
      have harest : a ∈ rest := by
        rcases List.mem_cons.mp ha with h1 | h1
        · exact absurd h1.symm hx
        · exact h1
      simp only [List.filter_cons, hpx]
      exact ih hnd.2 harest (fun q hq => hiff q (List.mem_cons_of_mem _ hq))

/-- C5: in the apply phase of `use_governor` (one `set_governor` task per
entry of the `domains` set computed from the captured snapshots), every
targeted cpu's domain receives exactly one governor write, issued
through the domain representative — the first entry of the cpu's
`affected_cpus` list — and no domain receives a second one. -/
theorem claim5_one_write_per_domain (cfg : Cfg) (gov : String)
    (kwargs : List (String × String)) (cpus : List Nat) (s0 : St)
    (hwf : WfCfg cfg)
    (hgov : ∀ c ∈ cpus, gov ∈ cfg.listGovernors (repOf cfg c))
    (hkw : ∀ p ∈ kwargs, p.1 ∈ (cfg.tunables gov).2) :
    domainsOf (capture cfg cpus s0).1 = Except.ok ((cpus.map (repOf cfg)).dedup) ∧
    ∀ c ∈ cpus,
      (applyGovernorPhase cfg gov kwargs ((cpus.map (repOf cfg)).dedup) s0).2.1.filter
          (isDomGovWrite cfg c) = [Ev.wGov (repOf cfg c) gov] := by
  refine ⟨domainsOf_capture hwf cpus s0, ?_⟩
  intro c hc
  have hgovdoms : ∀ r ∈ (cpus.map (repOf cfg)).dedup, gov ∈ cfg.listGovernors r := by
    intro r hr
    obtain ⟨c0, hc0, rfl⟩ := List.mem_map.mp (List.mem_dedup.mp hr)
    exact hgov c0 hc0
  rw [applyGovernorPhase_trace_filter cfg gov kwargs c _ s0 hgovdoms hkw]
  have hrepfix : ∀ r ∈ (cpus.map (repOf cfg)).dedup, repOf cfg r = r := by
    intro r hr
    obtain ⟨c0, _, rfl⟩ := List.mem_map.mp (List.mem_dedup.mp hr)
    exact repOf_idem hwf c0
  have hfil : ((cpus.map (repOf cfg)).dedup).filter
      (fun r => decide (r ∈ cfg.affected c)) = [repOf cfg c] := by
    apply filter_singleton_of_unique (List.nodup_dedup _)
      (List.mem_dedup.mpr (List.mem_map.mpr ⟨c, hc, rfl⟩))
    intro r hr
    constructor
    · intro hp
      have hrc : r ∈ cfg.affected c := of_decide_eq_true hp
      have := repOf_eq_of_mem hwf hrc
      rw [hrepfix r hr] at this
      exact this
    · intro hp
      subst hp
      exact decide_eq_true (repOf_mem hwf c)
  rw [hfil]
  rfl

/-! ### Restore-phase trace ordering (C7) -/

lemma isGovWrite_not_tun {e : Ev} (h : e.isGovWrite = true) : e.isTunWrite = false := by
  cases e <;> first | rfl | cases h

lemma setGovernor_nil_trace_gov (cfg : Cfg) (c : Nat) (g : String) (s : St) :
    ∀ e ∈ (setGovernor cfg c g [] s).2.1, e.isGovWrite = true := by
  intro e he
  by_cases h : g ∈ cfg.listGovernors c
  · simp only [setGovernor, if_pos h] at he
    have : (setGovernorTunables cfg c (some g) none []
        (writeGovCell cfg c g s)).2.1 = [] := rfl
    rw [this] at he
    rcases List.mem_singleton.mp he with rfl
    rfl
  · simp only [setGovernor, if_neg h] at he
    cases he

lemma runGovWrites_trace_gov (cfg : Cfg) :
    ∀ (args : List (Nat × String)) (s : St),
      ∀ e ∈ (runGovWrites cfg args s).2.1, e.isGovWrite = true := by
  intro args
  induction args with
  | nil => intro s e he; cases he
  | cons p rest ih =>
    intro s e he
    obtain ⟨r, g⟩ := p
    have htr := setGovernor_nil_trace_gov cfg r g s
    simp only [runGovWrites] at he
    rcases hte : setGovernor cfg r g [] s with ⟨s1, tr, out⟩
    rw [hte] at he htr
    cases out with
    | ok _ =>
      simp only [] at he
      rcases List.mem_append.mp he with h1 | h1
      · exact htr e h1
      · exact ih s1 e h1
    | error e1 => exact htr e he

lemma setFrequency_trace_no_gov (cfg : Cfg) (c : Nat) (v : Nat) (s : St) :
    ∀ e ∈ (setFrequency cfg c v s).2.1, e.isGovWrite = false := by
  intro e he
  unfold setFrequency at he
  split at he
  · cases he
  · split at he
    · rcases List.mem_singleton.mp he with rfl
      rfl
    · simp only [List.mem_cons, List.not_mem_nil, or_false] at he
      rcases he with rfl | rfl | rfl <;> rfl

lemma perCpuTask_trace_no_gov (cfg : Cfg) (infos : List (Nat × CpuInfo)) (r : Nat) (u : St) :
    ∀ e ∈ (perCpuTask cfg infos r u).2.1, e.isGovWrite = false := by
  intro e he
  cases hl : lookupInfo infos r with
  | none =>
    simp only [perCpuTask, hl] at he
    cases he
  | some i =>
    have hsh := setGovernorTunables_trace_shapes cfg r i.gov (some true) i.tun u
    simp only [perCpuTask, hl] at he
    rcases hte : setGovernorTunables cfg r (some i.gov) (some true) i.tun u
      with ⟨s1, trA, out⟩
    rw [hte] at he hsh
    cases out with
    | ok _ =>
      by_cases huser : i.gov = "userspace"
      · simp only [if_pos huser] at he
        rcases List.mem_append.mp he with h1 | h1
        · rcases hsh e h1 with ⟨t, v, rfl⟩ | ⟨t, v, rfl⟩ <;> rfl
        · exact setFrequency_trace_no_gov cfg r i.freq s1 e h1
      · simp only [if_neg huser] at he
        rcases hsh e he with ⟨t, v, rfl⟩ | ⟨t, v, rfl⟩ <;> rfl
    | error e1 =>
      rcases hsh e he with ⟨t, v, rfl⟩ | ⟨t, v, rfl⟩ <;> rfl

lemma perCpuBatch_trace_no_gov (cfg : Cfg) (infos : List (Nat × CpuInfo)) :
    ∀ (l : List Nat) (u : St),
      ∀ e ∈ (perCpuBatch cfg infos l u).2.1, e.isGovWrite = false := by
  intro l
  induction l with
  | nil => intro u e he; cases he
  | cons r rest ih =>
    intro u e he
    have htask := perCpuTask_trace_no_gov cfg infos r u
    simp only [perCpuBatch] at he
    rcases hte : perCpuTask cfg infos r u with ⟨s1, tr, out⟩
    rw [hte] at he htask
    cases out with
    | ok _ =>
      simp only [] at he
      rcases List.mem_append.mp he with h1 | h1
      · exact htask e h1
      · exact ih s1 e h1
    | error e1 => exact htask e he

lemma globalTask_trace_no_gov (cfg : Cfg) (e1 : String × Nat × List (String × String))
    (u : St) : ∀ e ∈ (globalTask cfg e1 u).2.1, e.isGovWrite = false := by
  intro e he
  rcases setGovernorTunables_trace_shapes cfg e1.2.1 e1.1 (some false) e1.2.2 u e he with
    ⟨t, v, rfl⟩ | ⟨t, v, rfl⟩ <;> rfl

lemma globalBatch_trace_no_gov (cfg : Cfg) :
    ∀ (l : List (String × Nat × List (String × String))) (u : St),
      ∀ e ∈ (globalBatch cfg l u).2.1, e.isGovWrite = false := by
  intro l
  induction l with
  | nil => intro u e he; cases he
  | cons e0 rest ih =>
    intro u e he
    have htask := globalTask_trace_no_gov cfg e0 u
    simp only [globalBatch] at he
    rcases hte : globalTask cfg e0 u with ⟨s1, tr, out⟩
    rw [hte] at he htask
    cases out with
    | ok _ =>
      simp only [] at he
      rcases List.mem_append.mp he with h1 | h1
      · exact htask e h1
      · exact ih s1 e h1
    | error e2 => exact htask e he

/-- The restore trace splits into a governor-write part followed by a
part with no governor writes: the governor batch is awaited before the
tunable batches on every path of the restore phase. -/
lemma restorePhase_trace_split (cfg : Cfg) (infos : List (Nat × CpuInfo))
    (doms : List Nat) (s : St) :
    ∃ trG trT, (restorePhase cfg infos doms s).2.1 = trG ++ trT ∧
      (∀ e ∈ trG, e.isTunWrite = false) ∧ (∀ e ∈ trT, e.isGovWrite = false) := by
  cases hargs : restoreGovArgs infos doms with
  | error e =>
    refine ⟨[], [], ?_, by simp, by simp⟩
    unfold restorePhase
    rw [hargs]
    rfl
  | ok args =>
    have hGall : ∀ e ∈ (runGovWrites cfg args s).2.1, e.isTunWrite = false :=
      fun e he => isGovWrite_not_tun (runGovWrites_trace_gov cfg args s e he)
    rcases hrun : runGovWrites cfg args s with ⟨s1, tr1, out1⟩
    rw [hrun] at hGall
    cases out1 with
    | error e =>
      refine ⟨tr1, [], ?_, hGall, by simp⟩
      unfold restorePhase
      rw [hargs]
      simp only [hrun]
      simp
    | ok _ =>
      have hT2 := perCpuBatch_trace_no_gov cfg infos doms s1
      rcases hpb : perCpuBatch cfg infos doms s1 with ⟨s2, tr2, out2⟩
      rw [hpb] at hT2
      cases out2 with
      | error e =>
        refine ⟨tr1, tr2, ?_, hGall, hT2⟩
        unfold restorePhase
        rw [hargs]
        simp only [hrun, hpb]
      | ok _ =>
        refine ⟨tr1, tr2 ++ (globalBatch cfg (globalTunablesDict infos) s2).2.1,
          ?_, hGall, ?_⟩
        · unfold restorePhase
          rw [hargs]
          simp only [hrun, hpb]
          simp
        · intro e he
          rcases List.mem_append.mp he with h1 | h1
          · exact hT2 e h1
          · exact globalBatch_trace_no_gov cfg _ s2 e h1

/-- C7: in the restore phase of `use_governor`, every governor-restore
write precedes every tunable write in the device trace — the governor
batch completes before any tunable path is written, on every exit path
of the restore phase. -/
theorem claim7_restore_ordering (cfg : Cfg) (infos : List (Nat × CpuInfo))
    (doms : List Nat) (s : St) (i j : Nat) (ei ej : Ev)
    (hgeti : (restorePhase cfg infos doms s).2.1[i]? = some ei)
    (hgetj : (restorePhase cfg infos doms s).2.1[j]? = some ej)
    (hgi : ei.isGovWrite = true) (htj : ej.isTunWrite = true) :
    i < j := by
  obtain ⟨trG, trT, heq, hG, hT⟩ := restorePhase_trace_split cfg infos doms s
  rw [heq] at hgeti hgetj
  have hiG : i < trG.length := by
    by_contra hge
    push_neg at hge
    rw [List.getElem?_append_right hge] at hgeti
    obtain ⟨hlt, hval⟩ := List.getElem?_eq_some_iff.mp hgeti
    have hmem : ei ∈ trT := hval ▸ List.getElem_mem _
    have := hT ei hmem
    rw [hgi] at this
    cases this
  have hjG : trG.length ≤ j := by
    by_contra hlt
    push_neg at hlt
    rw [List.getElem?_append, if_pos hlt] at hgetj
    obtain ⟨hlt2, hval⟩ := List.getElem?_eq_some_iff.mp hgetj
    have hmem : ej ∈ trG := hval ▸ List.getElem_mem _
    have := hG ej hmem
    rw [htj] at this
    cases this
  omega

/-- Witness for C5: the two-domain device `cfgW`, all four cpus
targeted; cpu 3's domain gets its single write through representative 2. -/
theorem claim5_one_write_per_domain_witness :
    domainsOf (capture cfgW [0, 1, 2, 3] stW).1 =
      Except.ok ((([0, 1, 2, 3] : List Nat).map (repOf cfgW)).dedup) ∧
    ∀ c ∈ [0, 1, 2, 3],
      (applyGovernorPhase cfgW "performance" []
          ((([0, 1, 2, 3] : List Nat).map (repOf cfgW)).dedup) stW).2.1.filter
        (isDomGovWrite cfgW c) = [Ev.wGov (repOf cfgW c) "performance"] :=
  claim5_one_write_per_domain cfgW "performance" [] [0, 1, 2, 3] stW cfgW_wf
    (by decide) (fun p hp => absurd hp (by simp))

/-- Witness for C7: a concrete restore phase whose trace is a governor
write at index 0 followed by a tunable write at index 1. -/
theorem claim7_restore_ordering_witness :
    ((restorePhase cfgW (capture cfgW [2, 3] stW).1
        ((([2, 3] : List Nat).map (repOf cfgW)).dedup) stW).2.1[0]? =
      some (Ev.wGov 2 "ondemand")) ∧
    ((restorePhase cfgW (capture cfgW [2, 3] stW).1
        ((([2, 3] : List Nat).map (repOf cfgW)).dedup) stW).2.1[1]? =
      some (Ev.wTunCpu 2 "ondemand" "sampling_rate" "42")) ∧
    (0 : Nat) < 1 :=
  ⟨rfl, rfl,
    claim7_restore_ordering cfgW (capture cfgW [2, 3] stW).1
      ((([2, 3] : List Nat).map (repOf cfgW)).dedup) stW 0 1
      (Ev.wGov 2 "ondemand") (Ev.wTunCpu 2 "ondemand" "sampling_rate" "42")
      rfl rfl rfl rfl⟩

/-! ### Manual-frequency restore (C8) -/

lemma setTunLoop_trace_global_of_false (cfg : Cfg) (c : Nat) (gov : String)
    (valid : List String) (pc : Option Bool) (kwargs : List (String × String)) (s : St) :
    ∀ e ∈ (setTunLoop cfg c gov false valid pc kwargs s).2.1,
      ∃ t v, e = Ev.wTunGlobal gov t v := by
  induction kwargs generalizing s with
  | nil => intro e he; cases he
  | cons p rest ih =>
    obtain ⟨t, v⟩ := p
    intro e he
    by_cases ht : t ∈ valid
    · by_cases hskip : skipTun pc false
      · simp only [setTunLoop, if_pos ht, if_pos hskip] at he
        exact ih _ e he
      · simp only [setTunLoop, if_pos ht, if_neg hskip] at he
        rcases List.mem_cons.mp he with rfl | hmem
        · exact ⟨t, v, by simp⟩
        · exact ih _ e hmem
    · simp only [setTunLoop, if_neg ht] at he
      cases he

lemma globalTask_trace_no_tunCpu (cfg : Cfg)
    (e1 : String × Nat × List (String × String)) (u : St) :
    ∀ e ∈ (globalTask cfg e1 u).2.1, ∀ x g t v, e ≠ Ev.wTunCpu x g t v := by
  intro e he x g t v
  unfold globalTask at he
  by_cases h : e1.2.2 = []
  · rw [h] at he
    cases he
  · simp only [setGovernorTunables, if_neg h] at he
    by_cases hpc : (cfg.tunables e1.1).1
    · rw [hpc] at he
      have hsk := setTunLoop_state_of_skip cfg e1.2.1 e1.1 true
        (cfg.tunables e1.1).2 (some false) e1.2.2 u rfl
      rw [hsk.2] at he
      cases he
    · have hb : (cfg.tunables e1.1).1 = false := by
        cases hx : (cfg.tunables e1.1).1
        · rfl
        · exact absurd hx hpc
      rw [hb] at he
      obtain ⟨t1, v1, rfl⟩ := setTunLoop_trace_global_of_false cfg e1.2.1 e1.1
        _ (some false) e1.2.2 u e he
      intro hcontra
      cases hcontra

lemma globalBatch_trace_no_tunCpu (cfg : Cfg) :
    ∀ (l : List (String × Nat × List (String × String))) (u : St),
      ∀ e ∈ (globalBatch cfg l u).2.1, ∀ x g t v, e ≠ Ev.wTunCpu x g t v := by
  intro l
  induction l with
  | nil => intro u e he; cases he
  | cons e0 rest ih =>
    intro u e he
    have htask := globalTask_trace_no_tunCpu cfg e0 u
    simp only [globalBatch] at he
    rcases hte : globalTask cfg e0 u with ⟨s1, tr, out⟩
    rw [hte] at he htask
    cases out with
    | ok _ =>
      simp only [] at he
      rcases List.mem_append.mp he with h1 | h1
      · exact htask e h1
      · exact ih s1 e h1
    | error e2 => exact htask e he

lemma perCpuTask_trace_tunCpu (cfg : Cfg) (infos : List (Nat × CpuInfo)) (r : Nat)
    (u : St) :
    ∀ e ∈ (perCpuTask cfg infos r u).2.1, ∀ x g t v, e = Ev.wTunCpu x g t v → x = r := by
  intro e he x g t v hx
  subst hx
  cases hl : lookupInfo infos r with
  | none =>
    simp only [perCpuTask, hl] at he
    cases he
  | some i =>
    have hsh := setGovernorTunables_trace_shapes cfg r i.gov (some true) i.tun u
    simp only [perCpuTask, hl] at he
    rcases hte : setGovernorTunables cfg r (some i.gov) (some true) i.tun u
      with ⟨s1, trA, out⟩
    rw [hte] at he hsh
    cases out with
    | ok _ =>
      by_cases huser : i.gov = "userspace"
      · simp only [if_pos huser] at he
        rcases List.mem_append.mp he with h1 | h1
        · rcases hsh _ h1 with ⟨t1, v1, heq⟩ | ⟨t1, v1, heq⟩
          · cases heq; rfl
          · cases heq
        · have := setFrequency_trace_no_gov cfg r i.freq s1 _ h1
          -- a `wFreq`/read event is never a per-policy tunable write
          exfalso
          unfold setFrequency at h1
          split at h1
          · cases h1
          · split at h1
            · rcases List.mem_singleton.mp h1 with h2
              cases h2
            · simp only [List.mem_cons, List.not_mem_nil, or_false] at h1
              rcases h1 with h2 | h2 | h2 <;> cases h2
      · simp only [if_neg huser] at he
        rcases hsh _ he with ⟨t1, v1, heq⟩ | ⟨t1, v1, heq⟩
        · cases heq; rfl
        · cases heq
    | error e1 =>
      rcases hsh _ he with ⟨t1, v1, heq⟩ | ⟨t1, v1, heq⟩
      · cases heq; rfl
      · cases heq

lemma perCpuBatch_trace_tunCpu_origin (cfg : Cfg) (infos : List (Nat × CpuInfo)) :
    ∀ (l : List Nat) (u : St),
      ∀ e ∈ (perCpuBatch cfg infos l u).2.1, ∀ x g t v, e = Ev.wTunCpu x g t v → x ∈ l := by
  intro l
  induction l with
  | nil => intro u e he; cases he
  | cons r rest ih =>
    intro u e he x g t v hx
    have htask := perCpuTask_trace_tunCpu cfg infos r u
    simp only [perCpuBatch] at he
    rcases hte : perCpuTask cfg infos r u with ⟨s1, tr, out⟩
    rw [hte] at he htask
    cases out with
    | ok _ =>
      simp only [] at he
      rcases List.mem_append.mp he with h1 | h1
      · exact (htask e h1 x g t v hx) ▸ List.mem_cons_self _ _
      · exact List.mem_cons_of_mem _ (ih s1 e h1 x g t v hx)
    | error e1 => exact (htask e he x g t v hx) ▸ List.mem_cons_self _ _

lemma perCpuTask_trace_userspace (cfg : Cfg) (infos : List (Nat × CpuInfo)) (r : Nat)
    (s0 u : St)
    (hlook : lookupInfo infos r = some (getCpuInfo cfg r s0).1)
    (hgovu : u.governor r = s0.governor r)
    (hfreqok : cfg.listFreqs r = [] ∨ s0.freq r ∈ cfg.listFreqs r)
    (huser : s0.governor r = "userspace") :
    ∃ trA, (perCpuTask cfg infos r u).2.1 =
        trA ++ [Ev.rGov r, Ev.wFreq r (s0.freq r), Ev.rFreq r] ∧
      (perCpuTask cfg infos r u).2.2 = Except.ok () := by
  have hvalid : ∀ p ∈ obsTun cfg s0 r, p.1 ∈ (cfg.tunables (s0.governor r)).2 :=
    obsTun_fst_valid cfg s0 r
  have hok := setGovernorTunables_some_ok cfg r (s0.governor r) (some true)
    (obsTun cfg s0 r) u hvalid
  have hgovfr := setGovernorTunables_governor cfg r (some (s0.governor r)) (some true)
    (obsTun cfg s0 r) u
  simp only [perCpuTask, hlook, getCpuInfo_gov, getCpuInfo_tun, getCpuInfo_freq]
  rcases hqe : setGovernorTunables cfg r (some (s0.governor r)) (some true)
    (obsTun cfg s0 r) u with ⟨s1, trA, out⟩
  rw [hqe] at hok hgovfr
  cases out with
  | ok _ =>
    simp only [if_pos huser]
    have hs1gov : s1.governor r = "userspace" := by
      have : s1.governor = u.governor := hgovfr
      rw [this, hgovu, huser]
    rw [setFrequency_ok cfg r (s0.freq r) s1 hfreqok hs1gov]
    exact ⟨trA, rfl, rfl⟩
  | error e => exact absurd hok (by simp)

lemma perCpuBatch_trace_freq (cfg : Cfg) (infos : List (Nat × CpuInfo)) (s0 : St)
    (r0 : Nat) (huser : s0.governor r0 = "userspace") :
    ∀ (l : List Nat) (u : St),
      (∀ r ∈ l, lookupInfo infos r = some (getCpuInfo cfg r s0).1) →
      (∀ r ∈ l, cfg.listFreqs r = [] ∨ s0.freq r ∈ cfg.listFreqs r) →
      (∀ r ∈ l, u.governor r = s0.governor r) →
      l.Nodup → r0 ∈ l →
      ∃ A B, (perCpuBatch cfg infos l u).2.1 = A ++ Ev.wFreq r0 (s0.freq r0) :: B ∧
        ∀ e ∈ B, ∀ g t v, e ≠ Ev.wTunCpu r0 g t v := by
  intro l
  induction l with
  | nil => intro u _ _ _ _ hr0; cases hr0
  | cons r rest ih =>
    intro u hinfo hfreq hgovu hnodup hr0
    have hnd := List.nodup_cons.mp hnodup
    have htaskgov := perCpuTask_governor cfg infos r u
    by_cases hr : r = r0
    · subst hr
      obtain ⟨trA, htr, hok⟩ := perCpuTask_trace_userspace cfg infos r s0 u
        (hinfo r (List.mem_cons_self _ _))
        (hgovu r (List.mem_cons_self _ _))
        (hfreq r (List.mem_cons_self _ _)) huser
      simp only [perCpuBatch]
      rcases hte : perCpuTask cfg infos r u with ⟨s1, tr, out⟩
      rw [hte] at htr hok htaskgov
      cases out with
      | ok _ =>
        simp only []
        have htr2 : tr = trA ++ [Ev.rGov r, Ev.wFreq r (s0.freq r), Ev.rFreq r] := htr
        refine ⟨trA ++ [Ev.rGov r], Ev.rFreq r :: (perCpuBatch cfg infos rest s1).2.1,
          ?_, ?_⟩
        · rw [htr2]
          simp
        · intro e he g t v
          rcases List.mem_cons.mp he with rfl | hmem
          · intro h; cases h
          · intro h
            subst h
            have := perCpuBatch_trace_tunCpu_origin cfg infos rest s1 _ hmem r g t v rfl
            exact hnd.1 this
      | error e1 => exact absurd hok (by simp)
    · have hr0rest : r0 ∈ rest := by
        rcases List.mem_cons.mp hr0 with heq | hm
        · exact absurd heq.symm hr
        · exact hm
      have htaskok := perCpuTask_ok cfg infos r s0 u
        (hinfo r (List.mem_cons_self _ _))
        (hgovu r (List.mem_cons_self _ _))
        (hfreq r (List.mem_cons_self _ _))
      simp only [perCpuBatch]
      rcases hte : perCpuTask cfg infos r u with ⟨s1, tr, out⟩
      rw [hte] at htaskok htaskgov
      cases out with
      | ok _ =>
        simp only []
        obtain ⟨A, B, heq, hB⟩ := ih s1
          (fun q hq => hinfo q (List.mem_cons_of_mem _ hq))
          (fun q hq => hfreq q (List.mem_cons_of_mem _ hq))
          (fun q hq => by
            rw [show s1.governor = u.governor from htaskgov]
            exact hgovu q (List.mem_cons_of_mem _ hq))
          hnd.2 hr0rest
        refine ⟨tr ++ A, B, ?_, hB⟩
        rw [heq]
        simp
      | error e1 => exact absurd htaskok (by simp)

/-- Is the event a `scaling_setspeed` (frequency) write? -/
def Ev.isFreqWrite : Ev → Bool
  | Ev.wFreq _ _ => true
  | _ => false

/-- Pre-call state whose governor is the manual-frequency governor
`userspace` on every cpu, with a captured frequency of 1000. -/
def stUser : St where
  governor := fun _ => "userspace"
  policyTun := fun _ _ _ => ""
  globalTun := fun _ _ => ""
  freq := fun _ => 1000

/-- C8, counterexample to the claim as frozen: with one domain `{0,1}`
and `use_governor("performance", [1], body)`, cpu 1's captured governor
is `userspace`, yet the restore phase raises `KeyError` for the
untargeted representative 0 before issuing any write: the whole
operation's device trace contains no frequency write at all, so the
captured frequency is never written back. -/
theorem claim8_counterexample :
    stUser.governor 1 = "userspace" ∧
    (useGovernor cfgNoRep "performance" [] [1]
        (fun u => (u, Except.ok ())) stUser).2.2 = Except.error [Exc.keyError 0] ∧
    (useGovernor cfgNoRep "performance" [] [1]
        (fun u => (u, Except.ok ())) stUser).2.1.countP Ev.isFreqWrite = 0 :=
  ⟨rfl, rfl, rfl⟩

/-- C8 (amended): in the restore phase of `use_governor`, provided the
targeted set contains the domain representative of each of its members
(the same representative-closure condition forced on C1/C2 by the
`KeyError` counterexample), for every targeted cpu whose captured
governor was `userspace`, the captured frequency value is written back
through `set_frequency` on the cpu's domain representative, and that
write comes after every per-policy tunable-restore write issued through
that representative: no `wTunCpu` event of the representative appears
after the `wFreq` event. -/
theorem claim8_userspace_freq (cfg : Cfg) (cpus : List Nat) (s0 t : St) (c : Nat)
    (hwf : WfCfg cfg) (hst : WfSt cfg s0)
    (hrc : ∀ c0 ∈ cpus, repOf cfg c0 ∈ cpus)
    (hc : c ∈ cpus) (huser : s0.governor c = "userspace") :
    ∃ pre post,
      (restorePhase cfg (capture cfg cpus s0).1
          ((cpus.map (repOf cfg)).dedup) t).2.1 =
        pre ++ Ev.wFreq (repOf cfg c) (s0.freq c) :: post ∧
      ∀ e ∈ post, ∀ g tq v, e ≠ Ev.wTunCpu (repOf cfg c) g tq v := by
  set infos := (capture cfg cpus s0).1 with hinfos
  set doms := (cpus.map (repOf cfg)).dedup with hdoms
  have hcons : DomConsistent cfg s0 := hst.1
  have hdom_cpus : ∀ r ∈ doms, r ∈ cpus := by
    intro r hr
    obtain ⟨c0, hc0, rfl⟩ := List.mem_map.mp (List.mem_dedup.mp hr)
    exact hrc c0 hc0
  have hinfoAll : ∀ r ∈ doms, lookupInfo infos r = some (getCpuInfo cfg r s0).1 :=
    fun r hr => lookupInfo_capture (hdom_cpus r hr)
  have hrepdom : repOf cfg c ∈ doms :=
    List.mem_dedup.mpr (List.mem_map.mpr ⟨c, hc, rfl⟩)
  have hargs : restoreGovArgs infos doms =
      Except.ok (doms.map (fun r => (r, s0.governor r))) :=
    restoreGovArgs_spec cfg s0 infos doms hinfoAll
  set args := doms.map (fun r => (r, s0.governor r)) with hargsdef
  have hargsvalid : ∀ p ∈ args, p.2 ∈ cfg.listGovernors p.1 := by
    intro p hp
    obtain ⟨r, _, rfl⟩ := List.mem_map.mp hp
    exact hst.2.1 r
  have hrun := runGovWrites_spec cfg args t hargsvalid
  set s3 := args.foldl (fun u p => writeGovCell cfg p.1 p.2 u) t with hs3
  have hgov3 : ∀ c0 ∈ cpus, s3.governor c0 = s0.governor c0 := by
    intro c0 hc0
    apply foldl_writeGov_governor_eq
    · intro p hp hcp
      obtain ⟨r, _, rfl⟩ := List.mem_map.mp hp
      exact (governor_eq_of_mem hcons hcp).symm
    · refine ⟨(repOf cfg c0, s0.governor (repOf cfg c0)), ?_, ?_⟩
      · exact List.mem_map.mpr ⟨repOf cfg c0,
          List.mem_dedup.mpr (List.mem_map.mpr ⟨c0, hc0, rfl⟩), rfl⟩
      · exact mem_affected_repOf hwf c0
  have hgov3doms : ∀ r ∈ doms, s3.governor r = s0.governor r :=
    fun r hr => hgov3 r (hdom_cpus r hr)
  have hfreqok : ∀ r ∈ doms, cfg.listFreqs r = [] ∨ s0.freq r ∈ cfg.listFreqs r :=
    fun r _ => hst.2.2 r
  have huserrep : s0.governor (repOf cfg c) = "userspace" := by
    rw [governor_repOf hwf hcons c]
    exact huser
  have hfreqrep : s0.freq (repOf cfg c) = s0.freq c :=
    (freq_eq_of_mem hcons (mem_affected_repOf hwf c)).symm
  obtain ⟨A, B, htr2, hB⟩ := perCpuBatch_trace_freq cfg infos s0 (repOf cfg c)
    huserrep doms s3 hinfoAll hfreqok hgov3doms (List.nodup_dedup _) hrepdom
  have hbatchok := perCpuBatch_ok cfg infos s0 doms s3 hinfoAll hfreqok hgov3doms
  rcases hpb : perCpuBatch cfg infos doms s3 with ⟨s4, tr2, out2⟩
  rw [hpb] at hbatchok htr2
  have hout2 : out2 = Except.ok () := hbatchok
  subst hout2
  have hres : (restorePhase cfg infos doms t).2.1 =
      args.map (fun p => Ev.wGov p.1 p.2) ++ tr2 ++
        (globalBatch cfg (globalTunablesDict infos) s4).2.1 := by
    unfold restorePhase
    rw [hargs]
    simp only [hrun, hpb]
  refine ⟨args.map (fun p => Ev.wGov p.1 p.2) ++ A,
    B ++ (globalBatch cfg (globalTunablesDict infos) s4).2.1, ?_, ?_⟩
  · have htr3 : tr2 = A ++ Ev.wFreq (repOf cfg c) (s0.freq (repOf cfg c)) :: B := htr2
    rw [hres, htr3, hfreqrep]
    simp
  · intro e he g tq v
    rcases List.mem_append.mp he with h1 | h1
    · exact hB e h1 g tq v
    · exact globalBatch_trace_no_tunCpu cfg _ s4 e h1 (repOf cfg c) g tq v

/-- Witness for C8: on `cfgW`, cpu 1's captured governor is `userspace`;
its captured frequency 1000 is restored through representative 0 after
that representative's tunable restores. -/
theorem claim8_userspace_freq_witness :
    ∃ pre post,
      (restorePhase cfgW (capture cfgW [0, 1, 2, 3] stW).1
          ((([0, 1, 2, 3] : List Nat).map (repOf cfgW)).dedup) stW).2.1 =
        pre ++ Ev.wFreq (repOf cfgW 1) (stW.freq 1) :: post ∧
      ∀ e ∈ post, ∀ g tq v, e ≠ Ev.wTunCpu (repOf cfgW 1) g tq v :=
  claim8_userspace_freq cfgW [0, 1, 2, 3] stW stW 1 cfgW_wf stW_wf
    (by decide) (by decide) rfl

end Devlib
